import Mathlib

/-!
# Verification of the kitty file-transfer sender (`kittens/transfer/send.py`)

A shallow embedding of the sender side of kitty's in-band file-transfer
protocol, translated from `src/kittens/transfer/send.py`, together with
theorems settling the specification claims about it.

The embedding is parameterized over an abstract environment `Env` that
models everything the Python code obtains from outside the file under
analysis: the filesystem (`os.stat`, `os.listdir`, `os.readlink`, file
contents), path expansion helpers from `kittens/transfer/utils.py`, the
`should_be_compressed` heuristic, and the opaque zlib deflate stream.
Strings are Lean `String`s, byte strings are `List Nat`, machine ints are
`Nat`/`Int`, and fallible operations return `Option`.
-/

namespace KittySend

/-- Byte strings (Python `bytes`) as lists of byte values. -/
abbrev Bytes := List Nat

/-- UTF-8 encoding of one character (by structural recursion so terms
evaluate inside the kernel). -/
def utf8Bytes (c : Char) : Bytes :=
  let n := c.toNat
  if n < 0x80 then [n]
  else if n < 0x800 then
    [0xC0 + n / 64, 0x80 + n % 64]
  else if n < 0x10000 then
    [0xE0 + n / 4096, 0x80 + (n / 64) % 64, 0x80 + n % 64]
  else
    [0xF0 + n / 262144, 0x80 + (n / 4096) % 64, 0x80 + (n / 64) % 64, 0x80 + n % 64]

/-- UTF-8 encoding of a string, as in Python's `str.encode('utf-8')`. -/
def strEncode (s : String) : Bytes :=
  (s.data.map utf8Bytes).flatten

/-- Whether `pre` is a prefix of `s` (Python `str.startswith`). -/
def strStartsWith (s pre : String) : Bool :=
  pre.data.isPrefixOf s.data

/-- Whether `suf` is a suffix of `s` (Python `str.endswith`). -/
def strEndsWith (s suf : String) : Bool :=
  suf.data.reverse.isPrefixOf s.data.reverse

/-- Splitting a character list at every occurrence of a character;
the backbone of `str.split('/')` in the path helpers. -/
def splitChar (c : Char) : List Char → List (List Char)
  | [] => [[]]
  | x :: xs =>
    match splitChar c xs with
    | [] => [[]]
    | g :: gs => if x = c then [] :: g :: gs else (x :: g) :: gs

/-- Python `s.replace(os.sep, '/')` for the single-character POSIX
separator: every separator character is mapped to `'/'` (on POSIX this
is the identity, written out to mirror the source's call). -/
def replaceSep (s : String) : String :=
  String.mk (s.data.map (fun c => if c = '/' then '/' else c))

/-- Lowercase hexadecimal rendering without the `0x` prefix, as in
Python's `hex(n)[2:]` for a nonnegative argument. -/
def toHex (n : Nat) : String :=
  String.mk (Nat.toDigits 16 n)

/-- POSIX path separator (`os.sep` on the platforms kitty runs on). -/
def osSep : String := "/"

/-- Embedding of `posixpath.isabs`. -/
def isabs (p : String) : Bool := strStartsWith p "/"

/-- Embedding of `posixpath.join` restricted to two components (the only form the
source uses). -/
def pathJoin (a b : String) : String :=
  if isabs b then b
  else if a = "" then b
  else if strEndsWith a "/" then a ++ b
  else a ++ "/" ++ b

/-- Embedding of `str.rstrip('/')`: drop trailing slash characters. -/
def rstripSlashes (p : String) : String :=
  String.mk ((p.data.reverse.dropWhile (fun c => c = '/')).reverse)

/-- Embedding of `posixpath.basename`: the part after the last slash. -/
def basename (p : String) : String :=
  String.mk ((splitChar '/' p.data).getLastD p.data)

/-- Embedding of `posixpath.dirname`: everything up to the last slash, with trailing
slashes stripped unless the result is all slashes. -/
def dirname (p : String) : String :=
  let parts := splitChar '/' p.data
  if parts.length ≤ 1 then ""
  else
    let head := String.mk ((List.intercalate ['/'] parts.dropLast) ++ ['/'])
    if head.data.all (fun c => c = '/') then head else rstripSlashes head

/-- The kind bits of `st_mode` relevant to the sender
(`stat.S_ISDIR` / `S_ISLNK` / `S_ISREG`, else "other"). -/
inductive StatKind where
  | dirK | lnkK | regK | otherK
deriving DecidableEq, Repr

/-- The fields of an `os.stat_result` the sender reads. -/
structure StatResult where
  kind : StatKind
  st_perm : Nat
  st_mtime_ns : Int
  st_size : Nat
  st_dev : Nat
  st_ino : Nat
deriving DecidableEq, Repr

/-- Embedding of `os.path.samestat`: equal device and inode numbers. -/
def samestat (a b : StatResult) : Bool :=
  a.st_ino = b.st_ino ∧ a.st_dev = b.st_dev

/-- Embedding of `kitty.file_transmission.FileType`. -/
inductive FileType where
  | regular | directory | symlink | link
deriving DecidableEq, Repr

/-- Embedding of `kitty.file_transmission.TransmissionType`. -/
inductive TransmissionType where
  | simple | rsync
deriving DecidableEq, Repr

/-- Embedding of `kitty.file_transmission.Compression`. -/
inductive Compression where
  | none | zlib
deriving DecidableEq, Repr

/-- Embedding of `FileState` from `send.py`. -/
inductive FileState where
  | waiting_for_start | waiting_for_data | transmitting | finished | acknowledged
deriving DecidableEq, Repr

/-- Embedding of `SendState` from `send.py`. -/
inductive SendState where
  | waiting_for_permission | permission_granted | permission_denied | canceled
deriving DecidableEq, Repr

/-- Embedding of `kitty.file_transmission.Action`, restricted to the actions the
sender emits or receives. -/
inductive Action where
  | send | file | data | end_data | cancel | finish | status
deriving DecidableEq, Repr

/-- The per-file streaming compressor.

Modelled from the spec: `IdentityCompressor` and `ZlibCompressor` live in
`kittens/transfer/utils.py`, which is not part of the analyzed sources.
Per spec §4.2 the identity variant "returns input unchanged and has an
empty flush" while the zlib variant produces an opaque deflate stream;
the zlib variant therefore carries the bytes fed so far and delegates
its output to the abstract environment. -/
inductive Compressor where
  | identity
  | zlib (fed : Bytes)
deriving DecidableEq, Repr

/-- Whether the compressor is the identity variant
(Python's `isinstance(c, IdentityCompressor)`). -/
def Compressor.isIdentity : Compressor → Bool
  | .identity => true
  | .zlib _ => false

/-- The abstract environment: everything `send.py` obtains from the
operating system, the Python standard library's stateful parts, and
repository modules outside the analyzed source file. -/
structure Env where
  /-- Embedding of `os.stat(path, follow_symlinks=False)`; `none` models `OSError`. -/
  lstatF : String → Option StatResult
  /-- Embedding of `os.stat(path)` following symlinks; `none` models `OSError`. -/
  statF : String → Option StatResult
  /-- Embedding of `os.readlink(path)`; `none` models `OSError`. -/
  readlinkF : String → Option String
  /-- Embedding of `os.listdir(path)`. -/
  listdirF : String → List String
  /-- Contents of the file opened by `open(path, 'rb')`;
  `none` models the open call raising. -/
  readFile : String → Option Bytes
  /-- Embedding of `kittens/transfer/utils.py: expand_home` (not in the analyzed sources). -/
  expand_home : String → String
  /-- Embedding of `kittens/transfer/utils.py: abspath` (not in the analyzed sources). -/
  abspath : String → String
  /-- Embedding of `kittens/transfer/utils.py: home_path` (not in the analyzed sources). -/
  home_path : String
  /-- Embedding of `kittens/transfer/utils.py: should_be_compressed` (not in the
  analyzed sources); a boolean filename heuristic per spec §4.2. -/
  should_be_compressed : String → Bool
  /-- Embedding of `kitty.utils.sanitize_control_codes` (not in the analyzed sources). -/
  sanitize : String → String
  /-- Embedding of `os.path.commonpath`; `none` models `ValueError`. -/
  commonpath : List String → Option String
  /-- Embedding of `os.path.relpath x start`. -/
  relpath : String → String → String
  /-- Output chunk of the streaming deflate for a given previously-fed
  input and newly-fed chunk (opaque zlib behaviour, spec §4.2). -/
  deflateStep : Bytes → Bytes → Bytes
  /-- Final flush output of the streaming deflate after the given total
  input has been fed (opaque zlib behaviour, spec §4.2). -/
  deflateFlush : Bytes → Bytes
  /-- Embedding of `kitty.file_transmission.encode_password` (not in the analyzed sources). -/
  encode_password : String → String → String
  /-- Embedding of `kitty.fast_data_types.FILE_TRANSFER_CODE`. -/
  file_transfer_code : Nat

/-- Embedding of `Compressor.compress`: output bytes plus updated compressor state. -/
def Compressor.compress (env : Env) : Compressor → Bytes → (Bytes × Compressor)
  | .identity, chunk => (chunk, .identity)
  | .zlib fed, chunk => (env.deflateStep fed chunk, .zlib (fed ++ chunk))

/-- Embedding of `Compressor.flush`: the terminal flush output. -/
def Compressor.flush (env : Env) : Compressor → Bytes
  | .identity => []
  | .zlib fed => env.deflateFlush fed

/-- Embedding of `get_remote_path` from `send.py`. -/
def get_remote_path (local_path remote_base : String) : String :=
  if remote_base = "" then replaceSep local_path
  else if strEndsWith remote_base "/" then pathJoin remote_base (basename local_path)
  else remote_base

/-- The `File` objects built by the planner and mutated by the send
manager, with the open file handle modelled as the opened content plus
the current read offset. -/
structure File where
  ttype : TransmissionType
  state : FileState
  local_path : String
  display_name : String
  expanded_local_path : String
  permissions : Nat
  mtime : Int
  file_size : Nat
  bytes_to_transmit : Nat
  file_hash : Nat × Nat
  remote_path : String
  file_id : String
  hard_link_target : String
  symbolic_link_target : String
  stat_result : StatResult
  file_type : FileType
  compression : Compression
  compressor : Compressor
  remote_final_path : String
  remote_initial_size : Int
  err_msg : String
  actual_file : Option (Bytes × Nat)
  transmitted_bytes : Nat
  transmit_started_at : Nat
  transmit_ended_at : Nat
deriving DecidableEq, Repr

/-- The compression heuristic computed on line 78–80 of `send.py`
(`zlib` iff regular, larger than 4096 bytes and `should_be_compressed`). -/
def heuristicCompression (env : Env) (file_type : FileType)
    (file_size : Nat) (expanded_local_path : String) : Compression :=
  if file_type = FileType.regular ∧ file_size > 4096 ∧
      env.should_be_compressed expanded_local_path then
    Compression.zlib
  else Compression.none

/-- Embedding of `File.__init__` from `send.py`.  Note that the heuristic value is
computed and then immediately overwritten by the unconditional
`self.compression = Compression.zlib` on line 81. -/
def mkFile (env : Env) (local_path expanded_local_path : String) (file_id : Nat)
    (stat_result : StatResult) (remote_base : String) (file_type : FileType)
    (ttype : TransmissionType := TransmissionType.simple) : File :=
  let compression := heuristicCompression env file_type stat_result.st_size expanded_local_path
  let compression := Compression.zlib
  { ttype := ttype
    state := FileState.waiting_for_start
    local_path := local_path
    display_name := env.sanitize local_path
    expanded_local_path := expanded_local_path
    permissions := stat_result.st_perm
    mtime := stat_result.st_mtime_ns
    file_size := stat_result.st_size
    bytes_to_transmit := stat_result.st_size
    file_hash := (stat_result.st_dev, stat_result.st_ino)
    remote_path := replaceSep (get_remote_path local_path remote_base)
    file_id := toHex file_id
    hard_link_target := ""
    symbolic_link_target := ""
    stat_result := stat_result
    file_type := file_type
    compression := compression
    compressor := if compression = Compression.zlib then Compressor.zlib [] else Compressor.identity
    remote_final_path := ""
    remote_initial_size := -1
    err_msg := ""
    actual_file := Option.none
    transmitted_bytes := 0
    transmit_started_at := 0
    transmit_ended_at := 0 }

/-- One pending work item of the depth-first walk: a path together with
the remote base in effect for it. -/
abbrev WorkItem := String × String

/-- The depth-first walk of `process` from `send.py`, written with an
explicit work list: visiting a directory prepends its children (paths
joined as `os.path.join(x, y)` over `os.listdir(expanded)`, with the
updated remote base) in front of the remaining work, which yields
exactly the generator's pre-order.  `fuel` bounds the number of visited
entries so the recursion is total; `none` models both a fatal
`SystemExit` on a failed stat and fuel exhaustion.  The counter is
advanced exactly when a `File` is yielded, as in the source. -/
def processW (env : Env) : Nat → List WorkItem → Nat → Option (List File)
  | _, [], _ => some []
  | 0, _ :: _, _ => Option.none
  | fuel + 1, (x, rb) :: rest, ctr =>
    let expanded := env.expand_home x
    match env.lstatF expanded with
    | Option.none => Option.none
    | some s =>
      match s.kind with
      | .dirK =>
        let f := mkFile env x expanded ctr s rb FileType.directory
        let nrb := if rb ≠ "" then rstripSlashes rb ++ "/" ++ basename x ++ "/"
                   else rstripSlashes (replaceSep x) ++ "/"
        let children := (env.listdirF expanded).map (fun y => (pathJoin x y, nrb))
        (processW env fuel (children ++ rest) (ctr + 1)).map (fun fs => f :: fs)
      | .lnkK =>
        (processW env fuel rest (ctr + 1)).map
          (fun fs => mkFile env x expanded ctr s rb FileType.symlink :: fs)
      | .regK =>
        (processW env fuel rest (ctr + 1)).map
          (fun fs => mkFile env x expanded ctr s rb FileType.regular :: fs)
      | .otherK => processW env fuel rest ctr

/-- Embedding of `process_mirrored_files` from `send.py`: absolutize the arguments,
rewrite them under `~` when they share a prefix below the home
directory, and walk them with an empty remote base. -/
def process_mirrored_files (env : Env) (fuel : Nat) (args : List String) :
    Option (List File) :=
  let paths := args.map env.abspath
  let common_path := (env.commonpath paths).getD ""
  let home := rstripSlashes env.home_path
  let paths :=
    if common_path ≠ "" ∧ strStartsWith common_path (home ++ osSep) then
      paths.map (fun x => pathJoin "~" (env.relpath x home))
    else paths
  processW env fuel (paths.map (fun p => (p, ""))) 1

/-- Embedding of `process_normal_files` from `send.py`: the last argument is the
remote base (slash-normalized, given a trailing slash when several
sources remain), the rest are absolutized local sources. -/
def process_normal_files (env : Env) (fuel : Nat) (args : List String) :
    Option (List File) :=
  if args.length < 2 then Option.none
  else
    let remote_base := replaceSep (args.getLastD "")
    let rem := args.dropLast
    let remote_base :=
      if rem.length > 1 ∧ ¬ strEndsWith remote_base "/" then remote_base ++ "/"
      else remote_base
    let paths := rem.map env.abspath
    processW env fuel (paths.map (fun p => (p, remote_base))) 1

/-- The walked file list before the two post-passes of `files_for_send`. -/
def plannerFiles (env : Env) (fuel : Nat) (mode : String) (args : List String) :
    Option (List File) :=
  if mode = "mirror" then process_mirrored_files env fuel args
  else process_normal_files env fuel args

/-- Body of the hard-link post-pass: `seen` holds the files walked so
far (in order).  A file is rewritten to type `link` exactly when an
earlier file shares its `file_hash` — i.e. it is in `group[1:]` of its
`(st_dev, st_ino)` group — and the target is the first file of the
group (`group[0].file_id`).  Group membership and the target id are
determined by the original, never-mutated `file_hash` and `file_id`
fields, so consulting the unrewritten prefix is equivalent to the
source's dict of groups. -/
def hlGo (seen : List File) : List File → List File
  | [] => []
  | f :: rest =>
    (match seen.find? (fun g => g.file_hash = f.file_hash) with
     | some g => { f with file_type := FileType.link, hard_link_target := g.file_id }
     | Option.none => f) :: hlGo (seen ++ [f]) rest

/-- The hard-link post-pass of `files_for_send` (lines 173–182). -/
def hardLinkPass (files : List File) : List File :=
  hlGo [] files

/-- The resolution of a readlink result against the symlink's parent
directory (line 193 of `send.py`). -/
def resolveQ (local_path link_dest : String) : String :=
  if isabs link_dest then link_dest
  else pathJoin (dirname local_path) link_dest

/-- Processing of one file by the symlink post-pass of `files_for_send`
(lines 184–205): `none` when the entry is removed (`files.remove(f)` on
a failed readlink).  The group lookup `groups[fh]` filtered by
`os.path.samestat` is, as in the source, performed against the full
post-hard-link-pass list, whose `file_hash`, `stat_result` and
`file_id` fields the pass never mutates. -/
def symlinkStep (env : Env) (files : List File) (f : File) : Option File :=
  if f.file_type = FileType.symlink then
    match env.readlinkF f.local_path with
    | Option.none => Option.none
    | some link_dest =>
      let f1 := { f with symbolic_link_target := "path:" ++ link_dest }
      let q := resolveQ f.local_path link_dest
      match env.statF q with
      | Option.none => some f1
      | some st =>
        let fh := (st.st_dev, st.st_ino)
        match (files.filter (fun x => x.file_hash = fh)).filter
            (fun x => samestat st x.stat_result) with
        | [] => some f1
        | t :: _ => some { f1 with symbolic_link_target := "fid:" ++ t.file_id }
  else some f

/-- The symlink post-pass of `files_for_send`: iterate over a snapshot
of the list, dropping entries whose readlink fails and rewriting the
symlink targets of the others. -/
def symlinkPass (env : Env) (files : List File) : List File :=
  files.filterMap (symlinkStep env files)

/-- Embedding of `files_for_send` from `send.py`. -/
def files_for_send (env : Env) (fuel : Nat) (mode : String) (args : List String) :
    Option (List File) :=
  (plannerFiles env fuel mode args).map (fun files => symlinkPass env (hardLinkPass files))

/-- Embedding of `File.next_chunk` from `send.py`: returns the produced (compressed)
bytes, the uncompressed byte count consumed, and the mutated file.
`none` models the uncaught exception raised when opening the underlying
file fails.  Symlinks and hard links return the UTF-8 encoding of their
target and transition straight to `finished` without touching the disk;
regular files lazily open their content, read up to `sz` raw bytes,
feed them to the compressor, and append the flush output and transition
to `finished` on the last read (empty read or offset past `file_size`). -/
def File.next_chunk (env : Env) (f : File) (sz : Nat := 1024 * 1024) :
    Option (Bytes × Nat × File) :=
  if f.file_type = FileType.symlink then
    let ans := strEncode f.symbolic_link_target
    some (ans, ans.length, { f with state := FileState.finished })
  else if f.file_type = FileType.link then
    let ans := strEncode f.hard_link_target
    some (ans, ans.length, { f with state := FileState.finished })
  else
    let opened : Option (Bytes × Nat) :=
      match f.actual_file with
      | some h => some h
      | Option.none => (env.readFile f.expanded_local_path).map (fun c => (c, 0))
    match opened with
    | Option.none => Option.none
    | some (content, pos) =>
      let chunk := (content.drop pos).take sz
      let uncompressed_sz := chunk.length
      let newPos := pos + uncompressed_sz
      let is_last := chunk = [] ∨ newPos ≥ f.file_size
      let (cchunk, comp) := f.compressor.compress env chunk
      let cchunk := if is_last ∧ ¬ comp.isIdentity then cchunk ++ comp.flush env else cchunk
      if is_last then
        some (cchunk, uncompressed_sz,
          { f with state := FileState.finished, actual_file := Option.none, compressor := comp })
      else
        some (cchunk, uncompressed_sz,
          { f with actual_file := some (content, newPos), compressor := comp })

/-- Successive `next_chunk` calls (at the default chunk size) until the
file transitions to `finished`, summing the reported uncompressed byte
counts; `none` on an exception or when `fuel` calls do not suffice. -/
def File.drain (env : Env) : Nat → File → Option Nat
  | 0, _ => Option.none
  | fuel + 1, f =>
    match f.next_chunk env with
    | Option.none => Option.none
    | some (_, usz, f') =>
      if f'.state = FileState.finished then some usz
      else (f'.drain env fuel).map (fun rest => usz + rest)

/-- Embedding of `kitty.file_transmission.FileTransmissionCommand`.

Modelled from the spec: the record type lives in
`kitty/file_transmission.py`, which is not part of the analyzed sources.
Spec §4.4 lists its fields (action, id, file_id, status, name, size,
mtime, permissions, compression, ftype, ttype, data, password); a field
not supplied at construction is left unset, modelled as `Option.none`. -/
structure FTC where
  action : Action
  id : Option String := Option.none
  file_id : Option String := Option.none
  status : Option String := Option.none
  name : Option String := Option.none
  size : Option Int := Option.none
  mtime : Option Int := Option.none
  permissions : Option Nat := Option.none
  compression : Option Compression := Option.none
  ftype : Option FileType := Option.none
  ttype : Option TransmissionType := Option.none
  data : Option Bytes := Option.none
  password : Option String := Option.none
deriving DecidableEq, Repr

/-- Embedding of `File.metadata_command` from `send.py`: the `action=file` metadata
frame for one plan entry.  Only action, compression, ftype, name,
permissions, mtime and file_id are supplied; in particular `size` is
left at its default. -/
def File.metadata_command (f : File) : FTC :=
  { action := Action.file
    compression := some f.compression
    ftype := some f.file_type
    name := some f.remote_path
    permissions := some f.permissions
    mtime := some f.mtime
    file_id := some f.file_id }

/-- In-place mutation of the object held at one position of a Python
list, as a positional update. -/
def modifyAt (l : List File) (i : Nat) (g : File → File) : List File :=
  l.enum.map (fun p => if p.1 = i then g p.2 else p.2)

/-- Embedding of `ProgressTracker` from `send.py`.  The active file reference is
modelled as an index into the manager's plan; timestamps are abstract
`Nat` instants supplied to each operation in place of `monotonic()`. -/
structure ProgressTracker where
  total_size_of_all_files : Nat
  total_bytes_to_transfer : Nat
  active_file : Option Nat := Option.none
  total_transferred : Nat := 0
  /-- The `Transfer` deque as `(amt, at)` pairs. -/
  transfers : List (Nat × Nat) := []
  transfered_stats_amt : Nat := 0
  transfered_stats_interval : Nat := 0
  started_at : Nat := 0
deriving DecidableEq, Repr

/-- Embedding of `SendManager` from `send.py`.  The `fid_map` is not stored: it is a
dict from `file_id` to the `File` object built once at construction,
and since no operation ever mutates a `file_id` or changes the plan's
length or order, looking the id up in the current plan (taking the last
match, as dict construction lets later entries win) is equivalent. -/
structure SendManager where
  files : List File
  password : String
  request_id : String
  state : SendState := SendState.waiting_for_permission
  all_acknowledged : Bool := false
  all_started : Bool := false
  active_idx : Option Nat := Option.none
  current_chunk_uncompressed_sz : Option Nat := Option.none
  prefix_ : String
  suffix : String
  progress : ProgressTracker
deriving DecidableEq, Repr

/-- Embedding of `SendManager.__init__` from `send.py`. -/
def SendManager.init (env : Env) (request_id : String) (files : List File)
    (pw : String := "") : SendManager :=
  { files := files
    password := if pw ≠ "" then env.encode_password request_id pw else ""
    request_id := request_id
    prefix_ := "\x1b]" ++ toString env.file_transfer_code ++ ";id=" ++ request_id ++ ";"
    suffix := "\x1b\\"
    progress :=
      let total := ((files.filter (fun df => 0 ≤ df.file_size)).map
        (fun df => df.file_size)).sum
      { total_size_of_all_files := total, total_bytes_to_transfer := total } }

/-- Embedding of `SendManager.update_collective_statuses` from `send.py`: the early
`break` only stops the scan once both flags are already determined, so
the result is the plain pair of scans. -/
def SendManager.update_collective_statuses (m : SendManager) : SendManager :=
  { m with
    all_acknowledged := m.files.all (fun f => f.state = FileState.acknowledged)
    all_started := m.files.all (fun f => f.state ≠ FileState.waiting_for_start) }

/-- The `SendManager.active_file` property: the active index when it is
set and the file there is currently `transmitting`, else `none`. -/
def SendManager.active_file (m : SendManager) : Option Nat :=
  match m.active_idx with
  | some i =>
    match m.files.get? i with
    | some f => if f.state = FileState.transmitting then some i else Option.none
    | Option.none => Option.none
  | Option.none => Option.none

/-- The dict lookup `fid_map.get(fid)`, as the index of the last plan
entry carrying the id (dict construction lets later keys win). -/
def fidIndex (files : List File) (fid : String) : Option Nat :=
  match files.reverse.findIdx? (fun f => f.file_id = fid) with
  | some j => some (files.length - 1 - j)
  | Option.none => Option.none

/-- First phase of `SendManager.activate_next_ready_file`: stamp the
previously active file's `transmit_ended_at` and report it to the
`file_done` callback. -/
def SendManager.finishPrevActive (m : SendManager) (now : Nat) : SendManager × List File :=
  match m.active_idx with
  | some i =>
    match m.files.get? i with
    | some paf =>
      let paf := { paf with transmit_ended_at := now }
      ({ m with files := m.files.set i paf }, [paf])
    | Option.none => (m, [])
  | Option.none => (m, [])

/-- Embedding of `SendManager.activate_next_ready_file` from `send.py`: stamp and
report the previously active file to the `file_done` callback, then
linearly scan for the first `transmitting` entry.  Returns the new
manager state together with the `File` snapshots passed to `file_done`
(in call order) and the newly activated index, if any. -/
def SendManager.activate_next_ready_file (m : SendManager) (now : Nat) :
    SendManager × List File × Option Nat :=
  let r := m.finishPrevActive now
  let dones := r.2
  let m := r.1
  match m.files.findIdx? (fun f => f.state = FileState.transmitting) with
  | some i =>
    let m := { m with active_idx := some i }
    let m := m.update_collective_statuses
    let m := { m with
      progress := { m.progress with active_file := some i }
      files := modifyAt m.files i (fun f => { f with transmit_started_at := now }) }
    (m, dones, some i)
  | Option.none =>
    let m := { m with active_idx := Option.none }
    (m.update_collective_statuses, dones, Option.none)

/-- The chunk-production loop of `SendManager.next_chunks`: repeatedly
call `next_chunk` on the active file while it is not `finished` and the
last produced chunk is empty, accumulating the uncompressed size. -/
def chunkLoop (env : Env) : Nat → File → Bytes → Nat → Option (Bytes × Nat × File)
  | 0, _, _, _ => Option.none
  | fuel + 1, af, chunk, csz =>
    if af.state ≠ FileState.finished ∧ chunk = [] then
      match af.next_chunk env with
      | Option.none => Option.none
      | some (c, usz, af') => chunkLoop env fuel af' c (csz + usz)
    else some (chunk, csz, af)

/-- The framing loop of `SendManager.next_chunks`: slice the produced
bytes into 4096-byte windows; a frame is `end_data` exactly when it is
the last slice of a production that left the file `finished`, else
`data`; every frame carries the active file's id.  The recursion is
paced by a fuel argument so that it is structural; since every round
consumes at least one byte, any fuel of at least the chunk's length
reproduces the source's loop exactly (the caller passes the length). -/
def splitGo (fid : String) (is_last : Bool) : Nat → Bytes → List FTC
  | _, [] => []
  | 0, _ :: _ => []
  | fuel + 1, b :: bs =>
    let chunk := b :: bs
    let cc := chunk.take 4096
    let rest := chunk.drop 4096
    let final := is_last ∧ rest = []
    { action := if final then Action.end_data else Action.data,
      file_id := some fid, data := some cc } :: splitGo fid is_last fuel rest

/-- Embedding of `SendManager.next_chunks` from `send.py`: activate a file if none is
active, produce one chunk, record its uncompressed size in
`current_chunk_uncompressed_sz`, and slice it into protocol frames.
Returns the yielded frames, the new manager state and the `file_done`
snapshots fired during activation; `none` models an uncaught read
exception (or exhausted loop fuel). -/
def SendManager.next_chunks (env : Env) (fuel : Nat) (m : SendManager) (now : Nat) :
    Option (List FTC × SendManager × List File) :=
  let (m1, dones) :=
    match m.active_file with
    | Option.none =>
      let r := m.activate_next_ready_file now
      (r.1, r.2.1)
    | some _ => (m, [])
  match m1.active_file with
  | Option.none => some ([], m1, dones)
  | some ai =>
    match m1.files.get? ai with
    | Option.none => Option.none
    | some af =>
      match chunkLoop env fuel af [] 0 with
      | Option.none => Option.none
      | some (chunk, csz, af') =>
        let is_last := af'.state = FileState.finished
        let frames := splitGo af'.file_id is_last chunk.length chunk
        some (frames,
          { m1 with files := m1.files.set ai af',
                    current_chunk_uncompressed_sz := some csz },
          dones)

/-- Embedding of `SendManager.start_transfer` from `send.py`: the initial `send`
frame carrying the (possibly empty) encoded password. -/
def SendManager.start_transfer (m : SendManager) : FTC :=
  { action := Action.send, password := some m.password }

/-- Embedding of `SendManager.send_file_metadata` from `send.py`. -/
def SendManager.send_file_metadata (m : SendManager) : List FTC :=
  m.files.map File.metadata_command

/-- The mutation applied to a file by a `STARTED` status frame
(lines 340–346 of `send.py`): record the remote path and initial size,
then move directories straight to `finished` and everything else to
`waiting_for_data` (rsync) or `transmitting`. -/
def startedFile (ftc : FTC) (file : File) : File :=
  let file := { file with
    remote_final_path := ftc.name.getD ""
    remote_initial_size := ftc.size.getD (-1) }
  if file.file_type = FileType.directory then { file with state := FileState.finished }
  else
    { file with state :=
        if file.ttype = TransmissionType.rsync then FileState.waiting_for_data
        else FileState.transmitting }

/-- The mutation applied to a file by a terminal status frame
(lines 348–352 of `send.py`): optionally adopt the name, acknowledge,
and record a non-`OK` status as the error message. -/
def ackedFile (ftc : FTC) (file : File) : File :=
  let file :=
    if ftc.name.getD "" ≠ "" ∧ file.remote_final_path = "" then
      { file with remote_final_path := ftc.name.getD "" }
    else file
  let file := { file with state := FileState.acknowledged }
  if ftc.status.getD "" ≠ "OK" then { file with err_msg := ftc.status.getD "" } else file

/-- Embedding of `SendManager.on_file_status_update` from `send.py`.  Returns the new
manager state and the `File` snapshots passed to `file_done`.  Unset
string fields of the incoming command behave as `''` and an unset size
as `-1`, matching the command record's Python defaults; the identity
test `file is self.files[self.active_idx]` holds exactly when the
looked-up index equals `active_idx`, since distinct plan positions hold
distinct objects. -/
def SendManager.on_file_status_update (m : SendManager) (ftc : FTC) :
    SendManager × List File :=
  match fidIndex m.files (ftc.file_id.getD "") with
  | Option.none => (m, [])
  | some i =>
    match m.files.get? i with
    | Option.none => (m, [])
    | some file =>
      if ftc.status.getD "" = "STARTED" then
        (({ m with files := m.files.set i (startedFile ftc file) }).update_collective_statuses,
         [])
      else
        let fc := ackedFile ftc file
        let m1 := { m with files := m.files.set i fc }
        let r :=
          if m1.active_idx = some i then ({ m1 with active_idx := Option.none }, [fc])
          else (m1, [])
        (r.1.update_collective_statuses, r.2)

/-- Embedding of `SendManager.on_file_transfer_response` from `send.py`: a `status`
frame with a (truthy) file id is a per-file update; one without is the
session-level permission grant or denial. -/
def SendManager.on_file_transfer_response (m : SendManager) (ftc : FTC) :
    SendManager × List File :=
  if ftc.action = Action.status then
    if ftc.file_id.getD "" ≠ "" then m.on_file_status_update ftc
    else
      ({ m with state :=
          if ftc.status.getD "" = "OK" then SendState.permission_granted
          else SendState.permission_denied }, [])
  else (m, [])

/-- The eviction loop of `ProgressTracker.on_transfer`: pop the oldest
sample while more than two samples remain and the oldest is over 30
seconds old. -/
def evictOld (now : Nat) : List (Nat × Nat) → List (Nat × Nat)
  | a :: b :: c :: rest =>
    if now - a.2 > 30 then evictOld now (b :: c :: rest) else a :: b :: c :: rest
  | l => l

/-- Embedding of `ProgressTracker.on_transfer` from `send.py`, lifted to the manager
because the tracker's active-file reference aliases a plan entry whose
`transmitted_bytes` counter it increments. -/
def SendManager.on_transfer (m : SendManager) (amt now : Nat) : SendManager :=
  let files :=
    match m.progress.active_file with
    | some i => modifyAt m.files i
        (fun f => { f with transmitted_bytes := f.transmitted_bytes + amt })
    | Option.none => m.files
  let transfers := evictOld now (m.progress.transfers ++ [(amt, now)])
  { m with
    files := files
    progress := { m.progress with
      total_transferred := m.progress.total_transferred + amt
      transfers := transfers
      transfered_stats_interval := now - ((transfers.head?.map Prod.snd).getD now)
      transfered_stats_amt := (transfers.map Prod.fst).sum } }

/-- Embedding of `ProgressTracker.start_transfer` from `send.py`, lifted to the manager. -/
def SendManager.progress_start_transfer (m : SendManager) (now : Nat) : SendManager :=
  { m with progress := { m.progress with
      transfers := m.progress.transfers ++ [(0, now)]
      started_at := now } }

/-- The `Send` handler state from `send.py` (terminal-rendering fields
omitted; they never feed back into the protocol or the exit code). -/
structure SendHandler where
  manager : SendManager
  confirm_paths : Bool := false
  permissions_password : String := ""
  transmit_started : Bool := false
  file_metadata_sent : Bool := false
  quit_after_write_code : Option Nat := Option.none
  check_paths_printed : Bool := false
  done_files : List File := []
  failed_files : List File := []
deriving DecidableEq, Repr

/-- Embedding of `Send.on_file_done` from `send.py`: record the file, and record it
among the failed files when its error message is non-empty at this
moment. -/
def SendHandler.on_file_done (h : SendHandler) (file : File) : SendHandler :=
  { h with
    done_files := h.done_files ++ [file]
    failed_files := if file.err_msg ≠ "" then h.failed_files ++ [file] else h.failed_files }

/-- Fire `on_file_done` for each callback snapshot a manager operation
produced, in order. -/
def SendHandler.fireDones (h : SendHandler) (dones : List File) : SendHandler :=
  dones.foldl SendHandler.on_file_done h

/-- Embedding of `Send.send_file_metadata` from `send.py`: emit all metadata frames
once. -/
def SendHandler.send_file_metadata (h : SendHandler) : SendHandler × List FTC :=
  if ¬ h.file_metadata_sent then
    ({ h with file_metadata_sent := true }, h.manager.send_file_metadata)
  else (h, [])

/-- Embedding of `Send.transfer_finished` from `send.py`: emit the `finish` frame and
schedule loop exit with code 1 when `failed_files` is non-empty, else 0. -/
def SendHandler.transfer_finished (h : SendHandler) : SendHandler × List FTC :=
  ({ h with quit_after_write_code := some (if h.failed_files ≠ [] then 1 else 0) },
   [{ action := Action.finish }])

/-- Embedding of `Send.transmit_next_chunk` from `send.py`: send every frame the
manager produces; the `for … else` clause always runs afterwards, so
when `all_acknowledged` holds at that point the transfer is finished. -/
def SendHandler.transmit_next_chunk (env : Env) (fuel now : Nat) (h : SendHandler) :
    Option (SendHandler × List FTC) :=
  match h.manager.next_chunks env fuel now with
  | Option.none => Option.none
  | some (frames, m', dones) =>
    let h := { h with manager := m' }
    let h := h.fireDones dones
    if h.manager.all_acknowledged then
      let (h, fin) := h.transfer_finished
      some (h, frames ++ fin)
    else some (h, frames)

/-- Embedding of `Send.start_transfer` from `send.py`. -/
def SendHandler.start_transfer (env : Env) (fuel now : Nat) (h : SendHandler) :
    Option (SendHandler × List FTC) :=
  let (h, dones) :=
    match h.manager.active_file with
    | Option.none =>
      let r := h.manager.activate_next_ready_file now
      ({ h with manager := r.1 }, r.2.1)
    | some _ => (h, [])
  let h := h.fireDones dones
  match h.manager.active_file with
  | some _ =>
    let h := { h with transmit_started := true,
                      manager := h.manager.progress_start_transfer now }
    h.transmit_next_chunk env fuel now
  | Option.none => some (h, [])

/-- Embedding of `Send.check_for_transmit_ok` from `send.py` (path printing is a
pure terminal effect and is tracked only through
`check_paths_printed`). -/
def SendHandler.check_for_transmit_ok (env : Env) (fuel now : Nat) (h : SendHandler) :
    Option (SendHandler × List FTC) :=
  if h.manager.state ≠ SendState.permission_granted then some (h, [])
  else if h.confirm_paths then
    if h.manager.all_started then some ({ h with check_paths_printed := true }, [])
    else some (h, [])
  else h.start_transfer env fuel now

/-- Embedding of `Send.loop_tick` from `send.py`. -/
def SendHandler.loop_tick (env : Env) (fuel now : Nat) (h : SendHandler) :
    Option (SendHandler × List FTC) :=
  if h.manager.state = SendState.waiting_for_permission then some (h, [])
  else if h.transmit_started then h.transmit_next_chunk env fuel now
  else h.check_for_transmit_ok env fuel now

/-- The result of a `Send` event handler: the new handler state, the
frames written out, the exit code passed to `quit_loop` (if called) and
the number of `loop_tick` callbacks enqueued with `call_soon`. -/
structure HStep where
  h : SendHandler
  frames : List FTC := []
  quit : Option Nat := Option.none
  ticks : Nat := 0
deriving Repr

/-- Embedding of `Send.on_file_transfer_response` from `send.py` (the handler-level
wrapper): drop frames after exit is scheduled or with a foreign request
id, exit immediately on `CANCELED`, ignore frames while canceled,
otherwise run the manager intake, react to a permission transition, and
enqueue a `loop_tick`. -/
def SendHandler.on_file_transfer_response (h : SendHandler) (ftc : FTC) :
    HStep :=
  if h.quit_after_write_code ≠ Option.none then { h := h }
  else if ftc.id.getD "" ≠ h.manager.request_id then { h := h }
  else if ftc.status.getD "" = "CANCELED" then { h := h, quit := some 1 }
  else if h.manager.state = SendState.canceled then { h := h }
  else
    let before := h.manager.state
    let r := h.manager.on_file_transfer_response ftc
    let h := ({ h with manager := r.1 } : SendHandler).fireDones r.2
    if before = SendState.waiting_for_permission then
      if h.manager.state = SendState.permission_denied then
        { h := h, quit := some 1 }
      else if h.manager.state = SendState.permission_granted then
        let (h, fr) := h.send_file_metadata
        { h := h, frames := fr, ticks := 1 }
      else { h := h, ticks := 1 }
    else { h := h, ticks := 1 }

/-- Embedding of `Send.on_writing_finished` from `send.py`: account a transmitted
chunk to the progress tracker, quit if an exit is scheduled, else
enqueue a tick while permission is granted and either transmission has
not begun or a chunk was just drained. -/
def SendHandler.on_writing_finished (now : Nat) (h : SendHandler) : HStep :=
  let chunk_transmitted := h.manager.current_chunk_uncompressed_sz ≠ Option.none
  let h :=
    if chunk_transmitted then
      { h with manager :=
        { h.manager.on_transfer (h.manager.current_chunk_uncompressed_sz.getD 0) now with
          current_chunk_uncompressed_sz := Option.none } }
    else h
  match h.quit_after_write_code with
  | some c => { h := h, quit := some c }
  | Option.none =>
    if h.manager.state = SendState.permission_granted ∧
        (¬ h.transmit_started ∨ chunk_transmitted) then
      { h := h, ticks := 1 }
    else { h := h }

/-- Embedding of `Send.initialize` from `send.py`: emit the `send` frame and, when a
password is configured, all the file metadata immediately. -/
def SendHandler.initialize (h : SendHandler) : SendHandler × List FTC :=
  let start := h.manager.start_transfer
  if h.permissions_password ≠ "" then
    let (h, fr) := h.send_file_metadata
    (h, start :: fr)
  else (h, [start])

/-- The cooperative event loop's observable state: the handler, the
number of queued `loop_tick` callbacks, every frame written so far, and
the exit code of the first `quit_loop` call. -/
structure World where
  h : SendHandler
  pending : Nat := 0
  out : List FTC := []
  exit : Option Nat := Option.none
deriving DecidableEq, Repr

/-- One event deliverable to the loop: an inbound protocol frame, the
execution of one queued `loop_tick` callback, or the channel reporting
a finished write. -/
inductive Ev where
  | frame (ftc : FTC)
  | runTick (fuel now : Nat)
  | writeDone (now : Nat)

/-- Deliver one event to the world.  `runTick` is only valid when a
tick callback is actually queued; `none` also models an uncaught
exception inside chunk production. -/
def stepEv (env : Env) (w : World) : Ev → Option World
  | .frame ftc =>
    let r := w.h.on_file_transfer_response ftc
    some { h := r.h, pending := w.pending + r.ticks,
           out := w.out ++ r.frames, exit := w.exit.orElse (fun _ => r.quit) }
  | .runTick fuel now =>
    match w.pending with
    | 0 => Option.none
    | p + 1 =>
      match w.h.loop_tick env fuel now with
      | Option.none => Option.none
      | some (h, fr) => some { w with h := h, pending := p, out := w.out ++ fr }
  | .writeDone now =>
    let r := w.h.on_writing_finished now
    some { h := r.h, pending := w.pending + r.ticks,
           out := w.out, exit := w.exit.orElse (fun _ => r.quit) }

/-- Run a list of events through the world. -/
def runEvents (env : Env) : List Ev → World → Option World
  | [], w => some w
  | e :: es, w =>
    match stepEv env w e with
    | some w' => runEvents env es w'
    | Option.none => Option.none

/-- Build the world as `send_main` does: construct the handler over a
plan and run `initialize`. -/
def initWorld (env : Env) (request_id : String) (files : List File)
    (confirm_paths : Bool := false) (pw : String := "") : World :=
  let h : SendHandler :=
    { manager := SendManager.init env request_id files pw
      confirm_paths := confirm_paths
      permissions_password := pw }
  let (h, fr) := h.initialize
  { h := h, out := fr }

/-! ## Concrete fixtures

Small concrete environments used to evaluate the embedding on explicit
inputs: an environment with a broken symlink next to a regular file, and
one with three one-byte regular files. -/

/-- Quick constructor for concrete stat results. -/
def stOf (k : StatKind) (dev ino : Nat) (size : Nat := 0) : StatResult :=
  { kind := k, st_perm := 420, st_mtime_ns := 7, st_size := size, st_dev := dev, st_ino := ino }

/-- Concrete environment: `/s` is a symlink whose readlink fails, `/r`
is a one-byte regular file. -/
def envA : Env :=
  { lstatF := fun p =>
      if p = "/s" then some (stOf .lnkK 1 10)
      else if p = "/r" then some (stOf .regK 1 11 1)
      else Option.none
    statF := fun _ => Option.none
    readlinkF := fun _ => Option.none
    listdirF := fun _ => []
    readFile := fun p => if p = "/r" then some [97] else Option.none
    expand_home := fun p => p
    abspath := fun p => if isabs p then p else "/" ++ p
    home_path := "/home/u"
    should_be_compressed := fun _ => false
    sanitize := fun p => p
    commonpath := fun _ => Option.none
    relpath := fun x _ => x
    deflateStep := fun _ c => c
    deflateFlush := fun _ => []
    encode_password := fun _ p => p
    file_transfer_code := 5113 }

/-- Concrete environment: `/a`, `/b` and `/c` are one-byte regular files. -/
def envB : Env :=
  { envA with
    lstatF := fun p =>
      if p = "/a" then some (stOf .regK 1 1 1)
      else if p = "/b" then some (stOf .regK 1 2 1)
      else if p = "/c" then some (stOf .regK 1 3 1)
      else Option.none
    readFile := fun p =>
      if p = "/a" then some [97] else if p = "/b" then some [98]
      else if p = "/c" then some [99] else Option.none }

/-- A session-level `status OK` frame for request id `rid`. -/
def frOK : FTC := { action := Action.status, id := some "rid", status := some "OK" }

/-- A per-file `STARTED` frame for request id `rid`. -/
def frStarted (fid : String) : FTC :=
  { action := Action.status, id := some "rid", file_id := some fid, status := some "STARTED" }

/-- A per-file terminal status frame for request id `rid`. -/
def frAck (fid s : String) : FTC :=
  { action := Action.status, id := some "rid", file_id := some fid, status := some s }

/-- The two-file plan over `envB`. -/
def planB2 : List File := (files_for_send envB 10 "normal" ["a", "b", "dest"]).getD []

/-- The three-file plan over `envB`. -/
def planB3 : List File := (files_for_send envB 10 "normal" ["a", "b", "c", "dest"]).getD []

/-- The one-file plan over `envB`. -/
def planB1 : List File := (files_for_send envB 10 "normal" ["a", "dest"]).getD []

/-! ## Claim C3 — compression selection -/

/-- A concretely constructed directory `File` (over `envB`). -/
def dirFileB : File := mkFile envB "/d" "/d" 1 (stOf .dirK 1 5 0) "" FileType.directory

/-- Counterexample to C3: for a directory entry the constructed
compression field is `zlib`, although the file is not regular, so the
claimed equivalence "compression is zlib iff regular and larger than
4096 bytes and `should_be_compressed`" is false at this input (the
unconditional override on line 81 of `send.py` discards the heuristic). -/
theorem C3_counterexample :
    ¬ (dirFileB.compression = Compression.zlib ↔
        (dirFileB.file_type = FileType.regular ∧ 4096 < dirFileB.file_size ∧
         envB.should_be_compressed dirFileB.expanded_local_path = true)) := by
  intro h
  have hz : dirFileB.compression = Compression.zlib := rfl
  rcases h.mp hz with ⟨hreg, -, -⟩
  exact absurd hreg (by decide)

/-- C3 (amended): `File.__init__` computes the heuristic compression
value (`zlib` iff regular, size strictly above 4096 and
`should_be_compressed`), but then unconditionally overrides the field
with `zlib`, so every constructed file has `compression = zlib` and a
`ZlibCompressor`. -/
theorem C3_compression_always_zlib (env : Env) (lp elp : String) (fid : Nat)
    (s : StatResult) (rb : String) (ft : FileType) (tt : TransmissionType) :
    (mkFile env lp elp fid s rb ft tt).compression = Compression.zlib ∧
    (mkFile env lp elp fid s rb ft tt).compressor = Compressor.zlib [] ∧
    (heuristicCompression env ft s.st_size elp = Compression.zlib ↔
      (ft = FileType.regular ∧ 4096 < s.st_size ∧ env.should_be_compressed elp = true)) := by
  refine ⟨rfl, rfl, ?_⟩
  unfold heuristicCompression
  split_ifs with h
  · exact iff_of_true rfl h
  · exact iff_of_false (by decide) h

/-! ## Claim C9 — metadata command fields -/

/-- A concretely constructed 12-byte regular `File` (over `envB`). -/
def regFileB : File := mkFile envB "/a" "/a" 1 (stOf .regK 1 1 12) "" FileType.regular

/-- Counterexample to C9: the metadata command for a 12-byte regular
file does not carry the file's size — `File.metadata_command` in
`send.py` never passes `size`, so the field keeps its default (unset). -/
theorem C9_counterexample :
    regFileB.file_size = 12 ∧ regFileB.metadata_command.size = Option.none ∧
    ∀ n : Int, regFileB.metadata_command.size ≠ some n := by
  refine ⟨rfl, rfl, fun n h => ?_⟩
  rw [show regFileB.metadata_command.size = Option.none from rfl] at h
  exact Option.noConfusion h

/-- C9 (amended): the metadata command emitted for a file carries its
file id, type, name, permissions, mtime and compression, but not its
size: the `size` field is left unset. -/
theorem C9_metadata_command_fields (f : File) :
    f.metadata_command.action = Action.file ∧
    f.metadata_command.file_id = some f.file_id ∧
    f.metadata_command.ftype = some f.file_type ∧
    f.metadata_command.name = some f.remote_path ∧
    f.metadata_command.permissions = some f.permissions ∧
    f.metadata_command.mtime = some f.mtime ∧
    f.metadata_command.compression = some f.compression ∧
    f.metadata_command.size = Option.none :=
  ⟨rfl, rfl, rfl, rfl, rfl, rfl, rfl, rfl⟩

/-! ## Claim C10 — unknown file id ignores the frame -/

/-- C10: a per-file status update whose file id is not the id of any
plan entry (hence not a key of `fid_map`) leaves the manager completely
unchanged and fires no callback. -/
theorem C10_unknown_fid_ignored (m : SendManager) (ftc : FTC)
    (h : ∀ f ∈ m.files, f.file_id ≠ ftc.file_id.getD "") :
    m.on_file_status_update ftc = (m, []) := by
  unfold SendManager.on_file_status_update
  have hnone : fidIndex m.files (ftc.file_id.getD "") = Option.none := by
    unfold fidIndex
    have : m.files.reverse.findIdx? (fun f => f.file_id = ftc.file_id.getD "") = Option.none := by
      rw [List.findIdx?_eq_none_iff]
      intro f hf
      simp only [decide_eq_false_iff_not]
      exact h f (List.mem_reverse.mp hf)
    rw [this]
  rw [hnone]

/-- Witness for C10 at a concrete manager and frame. -/
theorem C10_witness :
    (∀ f ∈ (SendManager.init envB "rid" planB2).files,
        f.file_id ≠ ((frAck "7" "OK").file_id.getD "")) ∧
    (SendManager.init envB "rid" planB2).on_file_status_update (frAck "7" "OK") =
      (SendManager.init envB "rid" planB2, []) :=
  ⟨by decide, C10_unknown_fid_ignored _ _ (by decide)⟩

/-! ## Claim C1 — hard-link post-pass -/

/-- Characterization of the hard-link pass on one `(st_dev, st_ino)`
group: for a prefix `seen` with no member of the group, the group's
members inside the output are the first one unchanged followed by the
others rewritten to links targeting it; if `seen` already holds a group
member `g`, every member is rewritten towards `g`. -/
theorem hlGo_filter (h : Nat × Nat) : ∀ (files seen : List File),
    (hlGo seen files).filter (fun f => f.file_hash = h) =
      (match seen.find? (fun g => g.file_hash = h) with
       | some g => (files.filter (fun f => f.file_hash = h)).map
           (fun f => { f with file_type := FileType.link, hard_link_target := g.file_id })
       | Option.none =>
         match files.filter (fun f => f.file_hash = h) with
         | [] => []
         | f₀ :: rest => f₀ :: rest.map
             (fun f => { f with file_type := FileType.link, hard_link_target := f₀.file_id })) := by
  intro files
  induction files with
  | nil =>
    intro seen
    cases seen.find? (fun g => g.file_hash = h) <;> simp [hlGo]
  | cons f fs ih =>
    intro seen
    rw [hlGo]
    have hrec := ih (seen ++ [f])
    rw [List.find?_append] at hrec
    by_cases hf : f.file_hash = h
    · subst hf
      rw [show [f].find? (fun g => g.file_hash = f.file_hash) = some f by simp] at hrec
      cases hseen : seen.find? (fun g => g.file_hash = f.file_hash) with
      | some g =>
        rw [hseen] at hrec
        simp only [Option.or] at hrec
        simp [List.filter_cons, hrec]
      | none =>
        rw [hseen] at hrec
        simp only [Option.or] at hrec
        simp [List.filter_cons, hrec]
    · rw [show [f].find? (fun g => g.file_hash = h) = Option.none by simp [hf]] at hrec
      have hpredf : ∀ (t : String) (ty : FileType),
          ({ f with file_type := ty, hard_link_target := t } : File).file_hash ≠ h := fun _ _ => hf
      cases hseen : seen.find? (fun g => g.file_hash = h) with
      | some g =>
        rw [hseen] at hrec
        simp only [Option.or] at hrec
        cases hx : seen.find? (fun g => g.file_hash = f.file_hash) with
        | some gx => simp [List.filter_cons, hf, hrec, hseen]
        | none => simp [List.filter_cons, hf, hrec, hseen]
      | none =>
        rw [hseen] at hrec
        simp only [Option.or] at hrec
        cases hx : seen.find? (fun g => g.file_hash = f.file_hash) with
        | some gx => simp [List.filter_cons, hf, hrec, hseen]
        | none => simp [List.filter_cons, hf, hrec, hseen]

/-- C1: after the hard-link post-pass, in every group of plan files
sharing one `(st_dev, st_ino)` pair, the first file in walk order keeps
its (non-`link`) type and every other member has type `link` with
`hard_link_target` the first member's file id.  The hypothesis that no
input file already has type `link` holds for every walked plan, since
the walk only emits regular, directory and symlink entries. -/
theorem C1_hard_link_groups (files : List File) (h : Nat × Nat)
    (hnl : ∀ f ∈ files, f.file_type ≠ FileType.link)
    (g₀ : File) (rest : List File)
    (hfil : (hardLinkPass files).filter (fun f => f.file_hash = h) = g₀ :: rest) :
    g₀.file_type ≠ FileType.link ∧
    ∀ f ∈ rest, f.file_type = FileType.link ∧ f.hard_link_target = g₀.file_id := by
  have hchar := hlGo_filter h files []
  rw [show ([] : List File).find? (fun g => g.file_hash = h) = Option.none from rfl] at hchar
  rw [hardLinkPass] at hfil
  rw [hchar] at hfil
  cases hsrc : files.filter (fun f => f.file_hash = h) with
  | nil => rw [hsrc] at hfil; exact absurd hfil (by simp)
  | cons f₀ r =>
    rw [hsrc] at hfil
    obtain ⟨rfl, rfl⟩ : f₀ = g₀ ∧ r.map
        (fun f => { f with file_type := FileType.link, hard_link_target := f₀.file_id }) = rest := by
      exact ⟨(List.cons.injEq _ _ _ _ ▸ hfil).1, (List.cons.injEq _ _ _ _ ▸ hfil).2⟩
    constructor
    · have : f₀ ∈ files := List.mem_of_mem_filter (hsrc ▸ List.mem_cons_self f₀ r)
      exact hnl f₀ this
    · intro f hf
      obtain ⟨x, -, rfl⟩ := List.mem_map.mp hf
      exact ⟨rfl, rfl⟩

/-- Two concrete regular files sharing one inode (a hard-link pair). -/
def hlA : File := mkFile envB "/a" "/a" 1 (stOf .regK 1 1 1) "" FileType.regular

/-- Second member of the concrete hard-link pair. -/
def hlB : File := mkFile envB "/b" "/b" 2 (stOf .regK 1 1 1) "" FileType.regular

/-- Witness for C1 on the concrete hard-link pair. -/
theorem C1_witness :
    (∀ f ∈ [hlA, hlB], f.file_type ≠ FileType.link) ∧
    (hlA.file_type ≠ FileType.link ∧
      ∀ f ∈ [{ hlB with file_type := FileType.link, hard_link_target := hlA.file_id }],
        f.file_type = FileType.link ∧ f.hard_link_target = hlA.file_id) :=
  ⟨by decide,
   C1_hard_link_groups [hlA, hlB] (1, 1) (by decide) hlA
     [{ hlB with file_type := FileType.link, hard_link_target := hlA.file_id }] (by decide)⟩

/-! ## Claim C4 — frame production -/

/-- One `next_chunk` call never changes a file's identity fields and can
only move its state to `finished`. -/
theorem next_chunk_preserves (env : Env) (f : File) (sz : Nat) (c : Bytes) (u : Nat)
    (f' : File) (h : f.next_chunk env sz = some (c, u, f')) :
    f'.file_id = f.file_id ∧ f'.file_type = f.file_type ∧ f'.ttype = f.ttype ∧
    (f'.state = f.state ∨ f'.state = FileState.finished) := by
  unfold File.next_chunk at h
  split at h
  · simp only [Option.some.injEq, Prod.mk.injEq] at h
    obtain ⟨-, -, rfl⟩ := h
    exact ⟨rfl, rfl, rfl, Or.inr rfl⟩
  · split at h
    · simp only [Option.some.injEq, Prod.mk.injEq] at h
      obtain ⟨-, -, rfl⟩ := h
      exact ⟨rfl, rfl, rfl, Or.inr rfl⟩
    · split at h
      · rename_i hd heq
        obtain ⟨content, pos⟩ := hd
        dsimp only at h
        split at h
        · simp only [Option.some.injEq, Prod.mk.injEq] at h
          obtain ⟨-, -, rfl⟩ := h
          exact ⟨rfl, rfl, rfl, Or.inr rfl⟩
        · simp only [Option.some.injEq, Prod.mk.injEq] at h
          obtain ⟨-, -, rfl⟩ := h
          exact ⟨rfl, rfl, rfl, Or.inl rfl⟩
      · rcases hrf : env.readFile f.expanded_local_path with - | content
        · rw [hrf] at h
          dsimp only [Option.map] at h
          exact absurd h (by simp)
        · rw [hrf] at h
          dsimp only [Option.map] at h
          split at h
          · simp only [Option.some.injEq, Prod.mk.injEq] at h
            obtain ⟨-, -, rfl⟩ := h
            exact ⟨rfl, rfl, rfl, Or.inr rfl⟩
          · simp only [Option.some.injEq, Prod.mk.injEq] at h
            obtain ⟨-, -, rfl⟩ := h
            exact ⟨rfl, rfl, rfl, Or.inl rfl⟩

/-- The chunk-production loop preserves the file's identity fields, can
only move the state towards `finished`, and only stops with an empty
chunk when the file is finished. -/
theorem chunkLoop_spec (env : Env) : ∀ (fuel : Nat) (af : File) (chunk : Bytes) (csz : Nat)
    (c : Bytes) (s : Nat) (af' : File),
    chunkLoop env fuel af chunk csz = some (c, s, af') →
    af'.file_id = af.file_id ∧ af'.file_type = af.file_type ∧ af'.ttype = af.ttype ∧
    (af'.state = af.state ∨ af'.state = FileState.finished) ∧
    (af'.state = FileState.finished ∨ c ≠ []) := by
  intro fuel
  induction fuel with
  | zero => intro af chunk csz c s af' h; exact absurd h (by simp [chunkLoop])
  | succ n ih =>
    intro af chunk csz c s af' h
    rw [chunkLoop] at h
    split at h
    · rename_i hcond
      rcases hnc : af.next_chunk env with - | ⟨c0, u0, f0⟩
      · rw [hnc] at h; exact absurd h (by simp)
      · rw [hnc] at h
        obtain ⟨hid, hft, htt, hst⟩ := next_chunk_preserves env af _ c0 u0 f0 hnc
        obtain ⟨hid', hft', htt', hst', hc'⟩ := ih f0 c0 (csz + u0) c s af' h
        refine ⟨hid'.trans hid, hft'.trans hft, htt'.trans htt, ?_, hc'⟩
        rcases hst' with h' | h'
        · rw [h']; exact hst
        · exact Or.inr h'
    · rename_i hcond
      simp only [Option.some.injEq, Prod.mk.injEq] at h
      obtain ⟨rfl, -, rfl⟩ := h
      push_neg at hcond
      refine ⟨rfl, rfl, rfl, Or.inl rfl, ?_⟩
      tauto

/-- Every frame produced by the framing loop carries the given file id,
a payload of at most 4096 bytes, and a `data` or `end_data` action. -/
theorem splitGo_mem (fid : String) (il : Bool) : ∀ (n : Nat) (c : Bytes), c.length ≤ n →
    ∀ fr ∈ splitGo fid il n c, fr.file_id = some fid ∧ (fr.data.getD []).length ≤ 4096 ∧
      (fr.action = Action.data ∨ fr.action = Action.end_data) := by
  intro n
  induction n with
  | zero =>
    intro c hlen fr hfr
    rw [List.length_eq_zero.mp (Nat.le_zero.mp hlen)] at hfr
    simp [splitGo] at hfr
  | succ n ih =>
    intro c hlen fr hfr
    match c with
    | [] => simp [splitGo] at hfr
    | b :: bs =>
      rw [splitGo] at hfr
      rcases List.mem_cons.mp hfr with rfl | hmem
      · refine ⟨rfl, by simpa using List.length_take_le 4096 (b :: bs), ?_⟩
        by_cases hfin : il = true ∧ (b :: bs).drop 4096 = []
        · rw [if_pos hfin]; right; rfl
        · rw [if_neg hfin]; left; rfl
      · refine ih ((b :: bs).drop 4096) ?_ fr hmem
        simp only [List.length_drop, List.length_cons]
        simp only [List.length_cons] at hlen
        omega

/-- The framing loop yields at least one frame for a non-empty chunk
whenever any fuel at all remains. -/
theorem splitGo_ne_nil (fid : String) (il : Bool) (n : Nat) (c : Bytes) (hne : c ≠ [])
    (hn : 1 ≤ n) : splitGo fid il n c ≠ [] := by
  match n, c with
  | 0, _ => exact absurd hn (by omega)
  | n + 1, [] => exact absurd rfl hne
  | n + 1, b :: bs =>
    rw [splitGo]
    simp

/-- Every frame before the last yielded by the framing loop is a `data`
frame. -/
theorem splitGo_dropLast (fid : String) (il : Bool) : ∀ (n : Nat) (c : Bytes), c.length ≤ n →
    ∀ fr ∈ (splitGo fid il n c).dropLast, fr.action = Action.data := by
  intro n
  induction n with
  | zero =>
    intro c hlen fr hfr
    rw [List.length_eq_zero.mp (Nat.le_zero.mp hlen)] at hfr
    simp [splitGo] at hfr
  | succ n ih =>
    intro c hlen fr hfr
    match c with
    | [] => simp [splitGo] at hfr
    | b :: bs =>
      rw [splitGo] at hfr
      by_cases hrest : (b :: bs).drop 4096 = []
      · rw [show splitGo fid il n ((b :: bs).drop 4096) = [] by rw [hrest]; cases n <;> rfl] at hfr
        simp at hfr
      · have hlen' : ((b :: bs).drop 4096).length ≤ n := by
          simp only [List.length_drop, List.length_cons]
          simp only [List.length_cons] at hlen
          omega
        have hn1 : 1 ≤ n := by
          rcases Nat.eq_zero_or_pos n with h0 | h1
          · exfalso
            apply hrest
            rw [← List.length_eq_zero]
            omega
          · exact h1
        have hsne := splitGo_ne_nil fid il n ((b :: bs).drop 4096) hrest hn1
        rw [List.dropLast_cons_of_ne_nil hsne] at hfr
        rcases List.mem_cons.mp hfr with rfl | hmem
        · rw [if_neg (by exact fun hc => hrest hc.2 :
            ¬ (il = true ∧ (b :: bs).drop 4096 = []))]
        · exact ih ((b :: bs).drop 4096) hlen' fr hmem

/-- The last frame yielded by the framing loop for a non-empty chunk has
action `end_data` exactly when the production was final. -/
theorem splitGo_getLast (fid : String) (il : Bool) : ∀ (n : Nat) (c : Bytes), c.length ≤ n →
    c ≠ [] →
    ∃ lf, (splitGo fid il n c).getLast? = some lf ∧
      lf.action = (if il then Action.end_data else Action.data) := by
  intro n
  induction n with
  | zero =>
    intro c hlen hne
    exact absurd (List.length_eq_zero.mp (Nat.le_zero.mp hlen)) hne
  | succ n ih =>
    intro c hlen hne
    match c with
    | [] => exact absurd rfl hne
    | b :: bs =>
      rw [splitGo]
      by_cases hrest : (b :: bs).drop 4096 = []
      · rw [show splitGo fid il n ((b :: bs).drop 4096) = [] by rw [hrest]; cases n <;> rfl]
        refine ⟨_, rfl, ?_⟩
        by_cases hil : il = true
        · rw [if_pos ⟨hil, hrest⟩, if_pos hil]; rfl
        · rw [if_neg (fun hc => hil hc.1), if_neg hil]; rfl
      · have hlen' : ((b :: bs).drop 4096).length ≤ n := by
          simp only [List.length_drop, List.length_cons]
          simp only [List.length_cons] at hlen
          omega
        obtain ⟨lf, hlf, hact⟩ := ih ((b :: bs).drop 4096) hlen' hrest
        refine ⟨lf, ?_, hact⟩
        rw [List.getLast?_cons, hlf]
        rfl

/-- The `active_file` property returns an index only when it is the
stored `active_idx` and the file there is `transmitting`. -/
theorem active_file_spec (m : SendManager) (i : Nat) (h : m.active_file = some i) :
    m.active_idx = some i ∧ ∃ f, m.files.get? i = some f ∧ f.state = FileState.transmitting := by
  unfold SendManager.active_file at h
  split at h
  · rename_i j heq
    split at h
    · rename_i f hget
      split at h
      · rename_i hst
        cases h
        exact ⟨heq, f, hget, hst⟩
      · exact absurd h (by simp)
    · exact absurd h (by simp)
  · exact absurd h (by simp)

/-- C4: when `next_chunks` runs with an active file, every produced
frame carries the active file's id and a payload of at most 4096 bytes,
every frame before the last is a `data` frame, the last frame is
`end_data` exactly when the active file ends the production in state
`finished`, and a production that leaves the file unfinished always
yields at least one frame. -/
theorem C4_next_chunks_frames (env : Env) (fuel now : Nat) (m : SendManager) (ai : Nat)
    (frames : List FTC) (m' : SendManager) (ds : List File)
    (hact : m.active_file = some ai)
    (h : m.next_chunks env fuel now = some (frames, m', ds)) :
    ∃ af af', m.files.get? ai = some af ∧ m'.files.get? ai = some af' ∧
      (∀ fr ∈ frames, fr.file_id = some af.file_id ∧ (fr.data.getD []).length ≤ 4096) ∧
      (∀ fr ∈ frames.dropLast, fr.action = Action.data) ∧
      (∀ lf, frames.getLast? = some lf →
        (lf.action = Action.end_data ↔ af'.state = FileState.finished)) ∧
      (af'.state ≠ FileState.finished → frames ≠ []) := by
  obtain ⟨hidx, af, hget, hst⟩ := active_file_spec m ai hact
  unfold SendManager.next_chunks at h
  rw [hact] at h
  dsimp only at h
  rw [hact] at h
  dsimp only at h
  rw [hget] at h
  dsimp only at h
  rcases hloop : chunkLoop env fuel af [] 0 with - | ⟨⟨chunk, csz, af'⟩⟩
  · rw [hloop] at h; exact absurd h (by simp)
  · rw [hloop] at h
    dsimp only at h
    simp only [Option.some.injEq, Prod.mk.injEq] at h
    obtain ⟨rfl, rfl, rfl⟩ := h
    obtain ⟨hid, hft, htt, hstate, hchunk⟩ := chunkLoop_spec env fuel af [] 0 _ _ _ hloop
    have hlt : ai < m.files.length := by
      rw [List.get?_eq_getElem?] at hget
      exact (List.getElem?_eq_some.mp hget).1
    refine ⟨af, af', hget, ?_, ?_, ?_, ?_, ?_⟩
    · show (m.files.set ai af').get? ai = some af'
      rw [List.get?_eq_getElem?]
      simp [List.getElem?_set_self (by simpa using hlt)]
    · intro fr hfr
      obtain ⟨h1, h2, -⟩ := splitGo_mem af'.file_id _ chunk.length chunk (le_refl _) fr hfr
      exact ⟨hid ▸ h1, h2⟩
    · exact splitGo_dropLast af'.file_id _ chunk.length chunk (le_refl _)
    · intro lf hlf
      have hne : chunk ≠ [] := by
        intro hc
        rw [hc] at hlf
        rw [show splitGo af'.file_id (decide (af'.state = FileState.finished))
          (List.length ([] : Bytes)) [] = [] from rfl] at hlf
        exact absurd hlf (by simp)
      obtain ⟨lf', hlf', hact'⟩ :=
        splitGo_getLast af'.file_id (decide (af'.state = FileState.finished))
          chunk.length chunk (le_refl _) hne
      rw [hlf'] at hlf
      cases hlf
      by_cases hfin : af'.state = FileState.finished
      · rw [hact']
        simp [hfin]
      · rw [hact']
        simp [hfin]
    · intro hfin
      rcases hchunk with h' | h'
      · exact absurd h' hfin
      · exact splitGo_ne_nil _ _ chunk.length chunk h' (by
          have := List.length_pos.mpr h'
          omega)

/-- The concrete one-file manager, after its file was STARTED and then
activated. -/
def mC4 : SendManager :=
  (((SendManager.init envB "rid" planB1).on_file_transfer_response
    (frStarted "1")).1.activate_next_ready_file 0).1

/-- The concrete production of `next_chunks` over `mC4`. -/
def ncC4 : List FTC × SendManager × List File :=
  (mC4.next_chunks envB 5 0).getD ([], mC4, [])

/-- Witness for C4 at the concrete one-file manager. -/
theorem C4_witness :
    mC4.active_file = some 0 ∧
    mC4.next_chunks envB 5 0 = some (ncC4.1, ncC4.2.1, ncC4.2.2) ∧
    (∃ af af', mC4.files.get? 0 = some af ∧ ncC4.2.1.files.get? 0 = some af' ∧
      (∀ fr ∈ ncC4.1, fr.file_id = some af.file_id ∧ (fr.data.getD []).length ≤ 4096) ∧
      (∀ fr ∈ ncC4.1.dropLast, fr.action = Action.data) ∧
      (∀ lf, ncC4.1.getLast? = some lf →
        (lf.action = Action.end_data ↔ af'.state = FileState.finished)) ∧
      (af'.state ≠ FileState.finished → ncC4.1 ≠ [])) :=
  ⟨by decide, by decide,
   C4_next_chunks_frames envB 5 0 mC4 0 ncC4.1 ncC4.2.1 ncC4.2.2 (by decide) (by decide)⟩

/-! ## Claim C5 — uncompressed byte accounting -/

/-- Opening a file lazily on the first `next_chunk` call behaves like
starting from an explicit handle at offset 0. -/
theorem next_chunk_fresh_eq (env : Env) (f : File) (content : Bytes) (sz : Nat)
    (hreg : f.file_type = FileType.regular)
    (hfresh : f.actual_file = Option.none)
    (hread : env.readFile f.expanded_local_path = some content) :
    f.next_chunk env sz = File.next_chunk env { f with actual_file := some (content, 0) } sz := by
  have hns : f.file_type ≠ FileType.symlink := by rw [hreg]; decide
  have hnl : f.file_type ≠ FileType.link := by rw [hreg]; decide
  unfold File.next_chunk
  rw [hfresh, hread]
  simp only [Option.map, if_neg hns, if_neg hnl]

/-- Draining a regular file whose handle is open at `pos` reports
exactly the remaining `content.length - pos` uncompressed bytes. -/
theorem drain_opened (env : Env) : ∀ (fuel : Nat) (f : File) (content : Bytes) (pos : Nat),
    f.file_type = FileType.regular →
    f.state ≠ FileState.finished →
    f.actual_file = some (content, pos) →
    content.length = f.file_size →
    content.length - pos + 1 ≤ fuel →
    File.drain env fuel f = some (content.length - pos) := by
  intro fuel
  induction fuel with
  | zero => intro f content pos _ _ _ _ hle; omega
  | succ n ih =>
    intro f content pos hreg hstate hopen hsz hle
    have hns : f.file_type ≠ FileType.symlink := by rw [hreg]; decide
    have hnl : f.file_type ≠ FileType.link := by rw [hreg]; decide
    have hlenchunk : ((content.drop pos).take (1024 * 1024)).length =
        min (1024 * 1024) (content.length - pos) := by
      simp [List.length_take, List.length_drop]
    rw [File.drain]
    unfold File.next_chunk
    rw [if_neg hns, if_neg hnl, hopen]
    dsimp only
    by_cases hlast : ((content.drop pos).take (1024 * 1024) = [] ∨
        pos + ((content.drop pos).take (1024 * 1024)).length ≥ f.file_size)
    · rw [if_pos hlast]
      dsimp only
      rw [if_pos rfl]
      congr 1
      rcases hlast with hnil | hge
      · have h0 : ((content.drop pos).take (1024 * 1024)).length = 0 := by rw [hnil]; rfl
        rw [h0]
        rw [h0] at hlenchunk
        omega
      · rw [← hsz] at hge
        omega
    · rw [if_neg hlast]
      dsimp only
      rw [if_neg hstate]
      push_neg at hlast
      obtain ⟨hnil, hlt⟩ := hlast
      rw [← hsz] at hlt
      have husz : ((content.drop pos).take (1024 * 1024)).length = 1024 * 1024 := by
        have hpos : ((content.drop pos).take (1024 * 1024)).length ≠ 0 := by
          intro h0
          exact hnil (List.length_eq_zero.mp h0)
        omega
      have hrec := ih
        { f with
          actual_file := some (content, pos + ((content.drop pos).take (1024 * 1024)).length)
          compressor := (f.compressor.compress env ((content.drop pos).take (1024 * 1024))).2 }
        content (pos + ((content.drop pos).take (1024 * 1024)).length) hreg hstate rfl hsz
        (by omega)
      rw [hrec]
      simp only [Option.map]
      congr 1
      omega

/-- C5: the sum of the uncompressed byte counts reported by successive
`next_chunk` calls until a file finishes equals the file's size for a
fresh regular file whose on-disk content matches its stat size, and
equals the byte length of the UTF-8 encoded link target for symlinks
(`symbolic_link_target`) and hard links (`hard_link_target`), which
both finish after exactly one call (any positive fuel) and never open
a disk file. -/
theorem C5_drain_totals (env : Env) (f : File) (content : Bytes) :
    (f.file_type = FileType.regular → f.state ≠ FileState.finished →
      f.actual_file = Option.none →
      env.readFile f.expanded_local_path = some content →
      content.length = f.file_size →
      f.drain env (f.file_size + 1) = some f.file_size) ∧
    (f.file_type = FileType.symlink →
      f.next_chunk env = some (strEncode f.symbolic_link_target,
        (strEncode f.symbolic_link_target).length, { f with state := FileState.finished }) ∧
      ∀ fuel : Nat, f.drain env (fuel + 1) = some (strEncode f.symbolic_link_target).length) ∧
    (f.file_type = FileType.link →
      f.next_chunk env = some (strEncode f.hard_link_target,
        (strEncode f.hard_link_target).length, { f with state := FileState.finished }) ∧
      ∀ fuel : Nat, f.drain env (fuel + 1) = some (strEncode f.hard_link_target).length) := by
  refine ⟨?_, ?_, ?_⟩
  · intro hreg hstate hfresh hread hsz
    have hstep : f.drain env (f.file_size + 1) =
        File.drain env (f.file_size + 1) { f with actual_file := some (content, 0) } := by
      rw [File.drain, File.drain, next_chunk_fresh_eq env f content _ hreg hfresh hread]
    rw [hstep]
    rw [drain_opened env (f.file_size + 1) { f with actual_file := some (content, 0) }
      content 0 hreg hstate rfl hsz (by omega)]
    rw [Nat.sub_zero, hsz]
  · intro hsym
    have hnc : f.next_chunk env = some (strEncode f.symbolic_link_target,
        (strEncode f.symbolic_link_target).length, { f with state := FileState.finished }) := by
      unfold File.next_chunk
      rw [if_pos hsym]
    refine ⟨hnc, fun fuel => ?_⟩
    rw [File.drain, hnc]
    rfl
  · intro hlnk
    have hns : f.file_type ≠ FileType.symlink := by rw [hlnk]; decide
    have hnc : f.next_chunk env = some (strEncode f.hard_link_target,
        (strEncode f.hard_link_target).length, { f with state := FileState.finished }) := by
      unfold File.next_chunk
      rw [if_neg hns, if_pos hlnk]
    refine ⟨hnc, fun fuel => ?_⟩
    rw [File.drain, hnc]
    rfl

/-- A concrete fresh regular `File` over `envB` (content `[97]`, size 1). -/
def c5reg : File := mkFile envB "/a" "/a" 1 (stOf .regK 1 1 1) "" FileType.regular

/-- A concrete symlink `File` with a resolved target recorded. -/
def c5sym : File :=
  { mkFile envB "/s" "/s" 2 (stOf .lnkK 1 10 0) "" FileType.symlink with
    symbolic_link_target := "fid:1" }

/-- Witness for C5 on a concrete regular file and a concrete symlink. -/
theorem C5_witness :
    (c5reg.file_type = FileType.regular ∧ c5reg.state ≠ FileState.finished ∧
      c5reg.actual_file = Option.none ∧
      envB.readFile c5reg.expanded_local_path = some [97] ∧
      ([97] : Bytes).length = c5reg.file_size ∧
      c5reg.drain envB (c5reg.file_size + 1) = some c5reg.file_size) ∧
    (c5sym.file_type = FileType.symlink ∧
      c5sym.drain envB (0 + 1) = some (strEncode c5sym.symbolic_link_target).length) :=
  ⟨⟨by decide, by decide, by decide, by decide, by decide,
    (C5_drain_totals envB c5reg [97]).1 (by decide) (by decide) (by decide) (by decide)
      (by decide)⟩,
   ⟨by decide, ((C5_drain_totals envB c5sym []).2.1 (by decide)).2 0⟩⟩

/-! ## Claim C2 — symlink post-pass -/

/-- A non-symlink entry passes through the symlink post-pass unchanged. -/
theorem symlinkStep_nonsym (env : Env) (fs : List File) (f : File)
    (h : f.file_type ≠ FileType.symlink) : symlinkStep env fs f = some f := by
  unfold symlinkStep
  rw [if_neg h]

/-- A symlink whose readlink fails is removed by the symlink post-pass. -/
theorem symlinkStep_dropped (env : Env) (fs : List File) (f : File)
    (hsym : f.file_type = FileType.symlink)
    (hrl : env.readlinkF f.local_path = Option.none) :
    symlinkStep env fs f = Option.none := by
  unfold symlinkStep
  rw [if_pos hsym, hrl]

/-- The symlink post-pass never changes an entry's id, stat result or
local path. -/
theorem symlinkStep_keeps (env : Env) (fs : List File) (f g : File)
    (h : symlinkStep env fs f = some g) :
    g.file_id = f.file_id ∧ g.stat_result = f.stat_result ∧ g.local_path = f.local_path := by
  unfold symlinkStep at h
  split at h
  · split at h
    · exact absurd h (by simp)
    · dsimp only at h
      split at h
      · cases h
        exact ⟨rfl, rfl, rfl⟩
      · split at h
        · cases h
          exact ⟨rfl, rfl, rfl⟩
        · cases h
          exact ⟨rfl, rfl, rfl⟩
  · cases h
    exact ⟨rfl, rfl, rfl⟩

/-- C2: after the symlink post-pass, non-symlinks and resolvable
symlinks survive; a symlink whose readlink fails leaves no entry with
its id in the plan; and every surviving symlink's target is
`fid:<id of a plan file whose stat matches the resolved target under
samestat>` when such a file exists, else `path:<readlink literal>`.
The hypotheses hold for every planner output: stat never resolves a
path to a symlink's own `(st_dev, st_ino)` on a consistent filesystem
(`hcons`), `file_hash` is built from `stat_result` by `File.__init__`
(`hhash`), and walk-assigned ids are distinct (`hids`). -/
theorem C2_symlink_pass (env : Env) (fs : List File)
    (hcons : ∀ q st, env.statF q = some st → ∀ x ∈ fs,
      x.file_hash = (st.st_dev, st.st_ino) → x.file_type ≠ FileType.symlink)
    (hhash : ∀ x ∈ fs, x.file_hash = (x.stat_result.st_dev, x.stat_result.st_ino))
    (hids : (fs.map (fun f => f.file_id)).Nodup) :
    (∀ f ∈ fs, f.file_type ≠ FileType.symlink → f ∈ symlinkPass env fs) ∧
    (∀ f ∈ fs, f.file_type = FileType.symlink → env.readlinkF f.local_path = Option.none →
      ∀ g ∈ symlinkPass env fs, g.file_id ≠ f.file_id) ∧
    (∀ f ∈ fs, f.file_type = FileType.symlink → ∀ ld, env.readlinkF f.local_path = some ld →
      ∃ g ∈ symlinkPass env fs, g.file_id = f.file_id ∧
        (match env.statF (resolveQ f.local_path ld) with
         | some st =>
           (∃ t ∈ symlinkPass env fs, samestat st t.stat_result = true ∧
             g.symbolic_link_target = "fid:" ++ t.file_id)
           ∨ ((∀ t ∈ symlinkPass env fs, samestat st t.stat_result = false) ∧
              g.symbolic_link_target = "path:" ++ ld)
         | Option.none => g.symbolic_link_target = "path:" ++ ld)) := by
  have hkept : ∀ f ∈ fs, f.file_type ≠ FileType.symlink → f ∈ symlinkPass env fs := by
    intro f hf hns
    exact List.mem_filterMap.mpr ⟨f, hf, symlinkStep_nonsym env fs f hns⟩
  refine ⟨hkept, ?_, ?_⟩
  · intro f hf hsym hrl g hg heq
    obtain ⟨f', hf', hstep⟩ := List.mem_filterMap.mp hg
    obtain ⟨hid, -, -⟩ := symlinkStep_keeps env fs f' g hstep
    have : f' = f := List.inj_on_of_nodup_map hids hf' hf (hid ▸ heq)
    rw [this] at hstep
    rw [symlinkStep_dropped env fs f hsym hrl] at hstep
    exact absurd hstep (by simp)
  · intro f hf hsym ld hld
    cases hstat : env.statF (resolveQ f.local_path ld) with
    | none =>
      have hstep0 : symlinkStep env fs f =
          some { f with symbolic_link_target := "path:" ++ ld } := by
        unfold symlinkStep
        rw [if_pos hsym, hld]
        dsimp only
        rw [hstat]
      exact ⟨{ f with symbolic_link_target := "path:" ++ ld },
        List.mem_filterMap.mpr ⟨f, hf, hstep0⟩, rfl, rfl⟩
    | some st =>
      have hstep0 : symlinkStep env fs f =
          (match (fs.filter (fun x => x.file_hash = (st.st_dev, st.st_ino))).filter
              (fun x => samestat st x.stat_result) with
           | [] => some { f with symbolic_link_target := "path:" ++ ld }
           | t :: _ => some { f with symbolic_link_target := "fid:" ++ t.file_id }) := by
        unfold symlinkStep
        rw [if_pos hsym, hld]
        dsimp only
        rw [hstat]
      cases hfil : (fs.filter (fun x => x.file_hash = (st.st_dev, st.st_ino))).filter
          (fun x => samestat st x.stat_result) with
      | nil =>
        rw [hfil] at hstep0
        refine ⟨{ f with symbolic_link_target := "path:" ++ ld },
          List.mem_filterMap.mpr ⟨f, hf, hstep0⟩, rfl, ?_⟩
        refine Or.inr ⟨?_, rfl⟩
        intro t ht
        obtain ⟨t', ht', hstep'⟩ := List.mem_filterMap.mp ht
        obtain ⟨-, hstat', -⟩ := symlinkStep_keeps env fs t' t hstep'
        rw [hstat']
        by_contra hss
        rw [Bool.not_eq_false] at hss
        have hh : t'.file_hash = (st.st_dev, st.st_ino) := by
          rw [hhash t' ht']
          unfold samestat at hss
          simp only [decide_eq_true_eq] at hss
          rw [hss.1, hss.2]
        have hmem1 : t' ∈ fs.filter (fun x => x.file_hash = (st.st_dev, st.st_ino)) :=
          List.mem_filter.mpr ⟨ht', by simp [hh]⟩
        have hmem2 : t' ∈ (fs.filter (fun x => x.file_hash = (st.st_dev, st.st_ino))).filter
            (fun x => samestat st x.stat_result) :=
          List.mem_filter.mpr ⟨hmem1, hss⟩
        rw [hfil] at hmem2
        exact absurd hmem2 (by simp)
      | cons t0 rest =>
        rw [hfil] at hstep0
        have hmem : t0 ∈ (fs.filter (fun x => x.file_hash = (st.st_dev, st.st_ino))).filter
            (fun x => samestat st x.stat_result) := by rw [hfil]; exact List.mem_cons_self t0 rest
        obtain ⟨hmem1, hss⟩ := List.mem_filter.mp hmem
        obtain ⟨ht0, hh0⟩ := List.mem_filter.mp hmem1
        have hns : t0.file_type ≠ FileType.symlink :=
          hcons _ st hstat t0 ht0 (by simpa using hh0)
        refine ⟨{ f with symbolic_link_target := "fid:" ++ t0.file_id },
          List.mem_filterMap.mpr ⟨f, hf, hstep0⟩, rfl, ?_⟩
        exact Or.inl ⟨t0, hkept t0 ht0 hns, hss, rfl⟩

/-- Concrete environment for the C2 witness: `/r` is a one-byte regular
file, `/s` is a symlink reading `r`, whose resolution stats to `/r`'s
inode. -/
def envC : Env :=
  { envA with
    readlinkF := fun p => if p = "/s" then some "r" else Option.none
    statF := fun q => if q = "/r" then some (stOf .regK 1 11 1) else Option.none }

/-- The concrete regular target file for the C2 witness. -/
def c2reg : File := mkFile envC "/r" "/r" 1 (stOf .regK 1 11 1) "" FileType.regular

/-- The concrete symlink file for the C2 witness. -/
def c2sym : File := mkFile envC "/s" "/s" 2 (stOf .lnkK 1 10 0) "" FileType.symlink

/-- Witness for C2 on the concrete pair: the symlink resolves to the
planned regular file and is rewritten to `fid:1`. -/
theorem C2_witness :
    ((([c2reg, c2sym] : List File).map (fun f => f.file_id)).Nodup) ∧
    (symlinkPass envC [c2reg, c2sym] =
      [c2reg, { c2sym with symbolic_link_target := "fid:1" }]) ∧
    (∀ f ∈ [c2reg, c2sym], f.file_type ≠ FileType.symlink →
      f ∈ symlinkPass envC [c2reg, c2sym]) :=
  ⟨by decide, by decide,
   (C2_symlink_pass envC [c2reg, c2sym]
     (by
       intro q st hst x hx hh
       rw [show envC.statF q =
         (if q = "/r" then some (stOf .regK 1 11 1) else Option.none) from rfl] at hst
       by_cases hq : q = "/r"
       · rw [if_pos hq] at hst
         cases hst
         rcases List.mem_cons.mp hx with rfl | hx2
         · decide
         · rcases List.mem_cons.mp hx2 with rfl | hx3
           · exact absurd hh (by decide)
           · exact absurd hx3 (by simp)
       · rw [if_neg hq] at hst
         exact absurd hst (by simp))
     (by decide) (by decide)).1⟩

/-! ## Claim C7 — the active index invariant -/

/-- Positional characterization of `modifyAt`. -/
theorem modifyAt_getElem? (l : List File) (i j : Nat) (g : File → File) :
    (modifyAt l i g)[j]? = l[j]?.map (fun x => if j = i then g x else x) := by
  unfold modifyAt
  rw [List.getElem?_map, List.enum, List.getElem?_enumFrom]
  cases l[j]? <;> simp

/-- Membership in `modifyAt` comes from an original element, possibly
modified. -/
theorem mem_modifyAt (l : List File) (i : Nat) (g : File → File) (f' : File)
    (h : f' ∈ modifyAt l i g) : ∃ x ∈ l, f' = x ∨ f' = g x := by
  unfold modifyAt at h
  obtain ⟨p, hp, hf'⟩ := List.mem_map.mp h
  have hx : p.2 ∈ l := by
    have := List.mem_enum_iff_get?.mp hp
    exact List.get?_mem this
  refine ⟨p.2, hx, ?_⟩
  by_cases hpi : p.1 = i
  · rw [if_pos hpi] at hf'
    exact Or.inr hf'.symm
  · rw [if_neg hpi] at hf'
    exact Or.inl hf'.symm

/-- A file eligible to transmit: simple transmission type and not a
directory (the only files `on_file_status_update` ever moves to
`transmitting`). -/
def trOk (f : File) : Prop :=
  f.ttype = TransmissionType.simple ∧ f.file_type ≠ FileType.directory

/-- The managed invariant: every `transmitting` file is eligible, and
the active index (when set) holds an eligible file that is
`transmitting` or `finished`. -/
def MgrInv (m : SendManager) : Prop :=
  (∀ f ∈ m.files, f.state = FileState.transmitting → trOk f) ∧
  (∀ i, m.active_idx = some i → ∃ f, m.files.get? i = some f ∧
      (f.state = FileState.transmitting ∨ f.state = FileState.finished) ∧ trOk f)

/-- The first activation phase preserves the per-file part of the
invariant and does not move the active index. -/
theorem finishPrev_inv (m : SendManager) (now : Nat) (h : MgrInv m) :
    (∀ f ∈ (m.finishPrevActive now).1.files, f.state = FileState.transmitting → trOk f) ∧
    (m.finishPrevActive now).1.active_idx = m.active_idx := by
  unfold SendManager.finishPrevActive
  split
  · rename_i i hidx
    split
    · rename_i paf hget
      refine ⟨?_, rfl⟩
      intro f hf hst
      rcases List.mem_or_eq_of_mem_set hf with hmem | rfl
      · exact h.1 f hmem hst
      · exact h.1 paf (List.get?_mem hget) hst
    · exact ⟨h.1, rfl⟩
  · exact ⟨h.1, rfl⟩

/-- `activate_next_ready_file` preserves the invariant. -/
theorem activate_inv (m : SendManager) (now : Nat) (h : MgrInv m) :
    MgrInv (m.activate_next_ready_file now).1 := by
  obtain ⟨h1, -⟩ := finishPrev_inv m now h
  unfold SendManager.activate_next_ready_file
  dsimp only
  split
  · rename_i i hfind
    obtain ⟨hlt, hpi, -⟩ := List.findIdx?_eq_some_iff_getElem.mp hfind
    simp only [decide_eq_true_eq] at hpi
    have hmemi : (m.finishPrevActive now).1.files[i] ∈ (m.finishPrevActive now).1.files :=
      List.getElem_mem hlt
    have htr := h1 _ hmemi hpi
    constructor
    · intro f hf hst
      dsimp only at hf
      obtain ⟨x, hx, hcase⟩ := mem_modifyAt _ i _ f hf
      rcases hcase with rfl | rfl
      · exact h1 f hx hst
      · exact h1 x hx hst
    · intro j hj
      dsimp only at hj
      cases hj
      dsimp only
      refine ⟨{ (m.finishPrevActive now).1.files[i] with transmit_started_at := now }, ?_, ?_, ?_⟩
      · rw [List.get?_eq_getElem?, modifyAt_getElem?]
        dsimp only [SendManager.update_collective_statuses]
        rw [List.getElem?_eq_getElem hlt]
        simp
      · left; exact hpi
      · exact htr
  · refine ⟨h1, ?_⟩
    intro j hj
    exact Option.noConfusion hj

/-- Invariant preservation for the chunk-producing tail of
`next_chunks`, given any post-activation manager. -/
theorem next_chunks_tail_inv (env : Env) (fuel : Nat) (m1 : SendManager) (dones : List File)
    (r : List FTC × SendManager × List File) (hm1 : MgrInv m1)
    (hrun : (match m1.active_file with
             | Option.none => some (([] : List FTC), m1, dones)
             | some ai =>
               match m1.files.get? ai with
               | Option.none => Option.none
               | some af =>
                 match chunkLoop env fuel af [] 0 with
                 | Option.none => Option.none
                 | some (chunk, csz, af') =>
                   some (splitGo af'.file_id (decide (af'.state = FileState.finished))
                       chunk.length chunk,
                     { m1 with files := m1.files.set ai af',
                               current_chunk_uncompressed_sz := some csz }, dones)) = some r) :
    MgrInv r.2.1 := by
  cases hact1 : m1.active_file with
  | none =>
    rw [hact1] at hrun
    cases hrun
    exact hm1
  | some ai =>
    rw [hact1] at hrun
    dsimp only at hrun
    obtain ⟨hidx1, af, hget, hst⟩ := active_file_spec m1 ai hact1
    rw [hget] at hrun
    dsimp only at hrun
    rcases hloop : chunkLoop env fuel af [] 0 with - | ⟨⟨chunk, csz, af'⟩⟩
    · rw [hloop] at hrun; exact absurd hrun (by simp)
    · rw [hloop] at hrun
      dsimp only at hrun
      cases hrun
      obtain ⟨hid, hft, htt, hstate, -⟩ := chunkLoop_spec env fuel af [] 0 _ _ _ hloop
      have haf_tr : trOk af := hm1.1 af (List.get?_mem hget) hst
      have htr' : trOk af' := by
        unfold trOk at haf_tr ⊢
        rw [hft, htt]
        exact haf_tr
      constructor
      · intro f hf hst'
        rcases List.mem_or_eq_of_mem_set hf with hmem | rfl
        · exact hm1.1 f hmem hst'
        · exact htr'
      · intro j hj
        have hj' : m1.active_idx = some j := hj
        rw [hidx1] at hj'
        cases hj'
        refine ⟨af', ?_, ?_, htr'⟩
        · have hlt : ai < m1.files.length := by
            rw [List.get?_eq_getElem?] at hget
            exact (List.getElem?_eq_some.mp hget).1
          show (m1.files.set ai af').get? ai = some af'
          rw [List.get?_eq_getElem?]
          simp [List.getElem?_set_self (by simpa using hlt)]
        · rcases hstate with h' | h'
          · rw [h']; left; exact hst
          · right; exact h'

/-- `next_chunks` preserves the invariant. -/
theorem next_chunks_inv (env : Env) (fuel now : Nat) (m : SendManager)
    (r : List FTC × SendManager × List File)
    (hInv : MgrInv m) (hrun : m.next_chunks env fuel now = some r) : MgrInv r.2.1 := by
  unfold SendManager.next_chunks at hrun
  cases hact : m.active_file with
  | none =>
    rw [hact] at hrun
    dsimp only at hrun
    exact next_chunks_tail_inv env fuel (m.activate_next_ready_file now).1
      (m.activate_next_ready_file now).2.1 r (activate_inv m now hInv) hrun
  | some ai =>
    rw [hact] at hrun
    dsimp only at hrun
    exact next_chunks_tail_inv env fuel m [] r hInv hrun

/-- The acked mutation always leaves the file `acknowledged`. -/
theorem ackedFile_state (ftc : FTC) (file : File) :
    (ackedFile ftc file).state = FileState.acknowledged := by
  unfold ackedFile
  by_cases hok : ftc.status.getD "" ≠ "OK"
  · rw [if_pos hok]
  · rw [if_neg hok]

/-- The STARTED mutation preserves a file's transmission and file
types, and yields `transmitting` exactly for non-directory files of
simple transmission type. -/
theorem startedFile_spec (ftc : FTC) (file : File) :
    (startedFile ftc file).ttype = file.ttype ∧
    (startedFile ftc file).file_type = file.file_type ∧
    (startedFile ftc file).state =
      (if file.file_type = FileType.directory then FileState.finished
       else if file.ttype = TransmissionType.rsync then FileState.waiting_for_data
       else FileState.transmitting) := by
  by_cases hdir : file.file_type = FileType.directory
  · simp [startedFile, hdir]
  · by_cases hrs : file.ttype = TransmissionType.rsync
    · simp [startedFile, hdir, hrs]
    · simp [startedFile, hdir, hrs]

/-- Embedding of `on_file_status_update` preserves the invariant. -/
theorem status_update_inv (m : SendManager) (ftc : FTC) (h : MgrInv m) :
    MgrInv (m.on_file_status_update ftc).1 := by
  unfold SendManager.on_file_status_update
  split
  · exact h
  · rename_i i hfid
    split
    · exact h
    · rename_i file hget
      have hlt : i < m.files.length := by
        rw [List.get?_eq_getElem?] at hget
        exact (List.getElem?_eq_some.mp hget).1
      by_cases hstarted : ftc.status.getD "" = "STARTED"
      · rw [if_pos hstarted]
        dsimp only
        obtain ⟨htt2, hft2, hst2⟩ := startedFile_spec ftc file
        constructor
        · intro f hf hst'
          rcases List.mem_or_eq_of_mem_set hf with hmem | rfl
          · exact h.1 f hmem hst'
          · rw [hst2] at hst'
            by_cases hdir : file.file_type = FileType.directory
            · rw [if_pos hdir] at hst'
              exact absurd hst' (by decide)
            · rw [if_neg hdir] at hst'
              by_cases hrs : file.ttype = TransmissionType.rsync
              · rw [if_pos hrs] at hst'
                exact absurd hst' (by decide)
              · rw [if_neg hrs] at hst'
                refine ⟨htt2.trans ?_, hft2 ▸ hdir⟩
                cases htt : file.ttype with
                | simple => rfl
                | rsync => exact absurd htt hrs
        · intro j hj
          have hj' : m.active_idx = some j := hj
          obtain ⟨fj, hgetj, hstj, htrj⟩ := h.2 j hj'
          by_cases hji : j = i
          · subst hji
            rw [hget] at hgetj
            cases hgetj
            refine ⟨startedFile ftc file, ?_, ?_, ?_⟩
            · show (m.files.set j (startedFile ftc file)).get? j = some (startedFile ftc file)
              rw [List.get?_eq_getElem?]
              simp [List.getElem?_set_self (by simpa using hlt)]
            · rw [hst2, if_neg htrj.2, if_neg (by rw [htrj.1]; decide)]
              left; rfl
            · exact ⟨htt2.trans htrj.1, hft2 ▸ htrj.2⟩
          · refine ⟨fj, ?_, hstj, htrj⟩
            show (m.files.set i (startedFile ftc file)).get? j = some fj
            rw [List.get?_eq_getElem?] at hgetj ⊢
            rw [List.getElem?_set_ne (fun hc => hji hc.symm)]
            exact hgetj
      · rw [if_neg hstarted]
        dsimp only
        by_cases hai : m.active_idx = some i
        · rw [if_pos (show ({ m with files := m.files.set i (ackedFile ftc file) }
              : SendManager).active_idx = some i from hai)]
          dsimp only
          constructor
          · intro f hf hst'
            rcases List.mem_or_eq_of_mem_set hf with hmem | rfl
            · exact h.1 f hmem hst'
            · rw [ackedFile_state] at hst'
              exact absurd hst' (by decide)
          · intro j hj
            exact Option.noConfusion hj
        · rw [if_neg (show ¬ ({ m with files := m.files.set i (ackedFile ftc file) }
              : SendManager).active_idx = some i from hai)]
          dsimp only
          constructor
          · intro f hf hst'
            rcases List.mem_or_eq_of_mem_set hf with hmem | rfl
            · exact h.1 f hmem hst'
            · rw [ackedFile_state] at hst'
              exact absurd hst' (by decide)
          · intro j hj
            have hj' : m.active_idx = some j := hj
            obtain ⟨fj, hgetj, hstj, htrj⟩ := h.2 j hj'
            have hji : j ≠ i := fun hc => hai (hc ▸ hj')
            refine ⟨fj, ?_, hstj, htrj⟩
            show (m.files.set i (ackedFile ftc file)).get? j = some fj
            rw [List.get?_eq_getElem?] at hgetj ⊢
            rw [List.getElem?_set_ne (fun hc => hji hc.symm)]
            exact hgetj

/-- Embedding of `on_file_transfer_response` preserves the invariant. -/
theorem response_inv (m : SendManager) (ftc : FTC) (h : MgrInv m) :
    MgrInv (m.on_file_transfer_response ftc).1 := by
  unfold SendManager.on_file_transfer_response
  by_cases ha : ftc.action = Action.status
  · rw [if_pos ha]
    by_cases hf : ftc.file_id.getD "" ≠ ""
    · rw [if_pos hf]
      exact status_update_inv m ftc h
    · rw [if_neg hf]
      exact ⟨h.1, h.2⟩
  · rw [if_neg ha]
    exact h

/-- One externally driven `SendManager` operation: an activation pass, a
chunk production, or an inbound protocol frame. -/
inductive MgrOp where
  | activate (now : Nat)
  | chunks (fuel now : Nat)
  | response (ftc : FTC)

/-- Apply one operation to the manager; `none` models an uncaught
exception during chunk production. -/
def SendManager.stepOp (env : Env) (m : SendManager) : MgrOp → Option SendManager
  | .activate now => some (m.activate_next_ready_file now).1
  | .chunks fuel now => (m.next_chunks env fuel now).map (fun r => r.2.1)
  | .response ftc => some (m.on_file_transfer_response ftc).1

/-- Run a sequence of manager operations. -/
def runOps (env : Env) : List MgrOp → SendManager → Option SendManager
  | [], m => some m
  | op :: ops, m =>
    match m.stepOp env op with
    | some m' => runOps env ops m'
    | Option.none => Option.none

/-- Single-step invariant preservation. -/
theorem stepOp_inv (env : Env) (m : SendManager) (op : MgrOp) (m' : SendManager)
    (h : MgrInv m) (hs : m.stepOp env op = some m') : MgrInv m' := by
  cases op with
  | activate now =>
    cases hs
    exact activate_inv m now h
  | chunks fuel now =>
    unfold SendManager.stepOp at hs
    dsimp only at hs
    cases hr : m.next_chunks env fuel now with
    | none => rw [hr] at hs; exact absurd hs (by simp)
    | some r =>
      rw [hr] at hs
      simp only [Option.map] at hs
      cases hs
      exact next_chunks_inv env fuel now m r h hr
  | response ftc =>
    cases hs
    exact response_inv m ftc h

/-- Invariant preservation along any operation sequence. -/
theorem runOps_inv (env : Env) : ∀ (ops : List MgrOp) (m m' : SendManager),
    MgrInv m → runOps env ops m = some m' → MgrInv m' := by
  intro ops
  induction ops with
  | nil =>
    intro m m' h hrun
    cases hrun
    exact h
  | cons op ops ih =>
    intro m m' h hrun
    rw [runOps] at hrun
    cases hs : m.stepOp env op with
    | none => rw [hs] at hrun; exact absurd hrun (by simp)
    | some m1 =>
      rw [hs] at hrun
      exact ih m1 m' (stepOp_inv env m op m1 h hs) hrun

/-- A freshly initialized manager over a plan of waiting files
satisfies the invariant. -/
theorem init_inv (env : Env) (rid : String) (files : List File) (pw : String)
    (hinit : ∀ f ∈ files, f.state = FileState.waiting_for_start) :
    MgrInv (SendManager.init env rid files pw) := by
  constructor
  · intro f hf hst
    rw [hinit f hf] at hst
    exact absurd hst (by decide)
  · intro j hj
    exact Option.noConfusion hj

/-- C7 (amended): between `SendManager` operations, `active_idx` is
either none or an index into the plan whose file is `transmitting` or
`finished` — the index lingers on a file that `next_chunks` just
finished until the next activation or its acknowledgement clears it,
so `transmitting` alone (as the claim states it) is not an invariant,
but `transmitting`-or-`finished` is. -/
theorem C7_active_idx_states (env : Env) (rid : String) (files : List File) (pw : String)
    (ops : List MgrOp) (m' : SendManager)
    (hinit : ∀ f ∈ files, f.state = FileState.waiting_for_start)
    (hrun : runOps env ops (SendManager.init env rid files pw) = some m') :
    m'.active_idx = Option.none ∨
    ∃ i f, m'.active_idx = some i ∧ m'.files.get? i = some f ∧
      (f.state = FileState.transmitting ∨ f.state = FileState.finished) := by
  have hInv := runOps_inv env ops _ m' (init_inv env rid files pw hinit) hrun
  cases hidx : m'.active_idx with
  | none => exact Or.inl rfl
  | some i =>
    obtain ⟨f, h1, h2, -⟩ := hInv.2 i hidx
    exact Or.inr ⟨i, f, rfl, h1, h2⟩

/-- The concrete one-file manager after STARTED and one chunk
production, reached through the operation machine. -/
def mC7 : SendManager :=
  (runOps envB [MgrOp.response (frStarted "1"), MgrOp.chunks 5 0]
    (SendManager.init envB "rid" planB1)).getD (SendManager.init envB "rid" planB1)

/-- Counterexample to C7 as stated: after `next_chunks` finishes the
only file, `active_idx` still points at it while its state is
`finished`, not `transmitting`. -/
theorem C7_counterexample :
    runOps envB [MgrOp.response (frStarted "1"), MgrOp.chunks 5 0]
      (SendManager.init envB "rid" planB1) = some mC7 ∧
    mC7.active_idx = some 0 ∧
    (mC7.files.get? 0).map (fun f => f.state) = some FileState.finished ∧
    FileState.finished ≠ FileState.transmitting :=
  ⟨by decide, by decide, by decide, by decide⟩

/-- Witness for the amended C7 on the concrete one-file run. -/
theorem C7_witness :
    (∀ f ∈ planB1, f.state = FileState.waiting_for_start) ∧
    (runOps envB [MgrOp.response (frStarted "1"), MgrOp.chunks 5 0]
      (SendManager.init envB "rid" planB1) = some mC7) ∧
    (mC7.active_idx = Option.none ∨
      ∃ i f, mC7.active_idx = some i ∧ mC7.files.get? i = some f ∧
        (f.state = FileState.transmitting ∨ f.state = FileState.finished)) :=
  ⟨by decide, by decide,
   C7_active_idx_states envB "rid" planB1 "" [MgrOp.response (frStarted "1"), MgrOp.chunks 5 0]
     mC7 (by decide) (by decide)⟩

/-- Firing `file_done` callbacks touches only the done/failed lists:
the manager and any scheduled exit code are unchanged. -/
theorem fireDones_frame : ∀ (ds : List File) (h : SendHandler),
    (h.fireDones ds).manager = h.manager ∧
    (h.fireDones ds).quit_after_write_code = h.quit_after_write_code := by
  intro ds
  induction ds with
  | nil => intro h; exact ⟨rfl, rfl⟩
  | cons d ds ih => intro h; exact ih (h.on_file_done d)

/-- No frame produced by the framing loop is a `finish` frame. -/
theorem splitFrames_no_finish (fid : String) (il : Bool) (n : Nat) (c : Bytes)
    (hle : c.length ≤ n) : ∀ f ∈ splitGo fid il n c, f.action ≠ Action.finish := by
  intro f hf
  rcases (splitGo_mem fid il n c hle f hf).2.2 with ha | ha <;> rw [ha] <;> decide

/-- No frame produced by `next_chunks` is a `finish` frame. -/
theorem next_chunks_no_finish (env : Env) (fuel now : Nat) (m : SendManager)
    (frames : List FTC) (m' : SendManager) (ds : List File)
    (h : m.next_chunks env fuel now = some (frames, m', ds)) :
    ∀ f ∈ frames, f.action ≠ Action.finish := by
  unfold SendManager.next_chunks at h
  rcases hA : m.active_file with - | ai0
  · rw [hA] at h
    dsimp only at h
    rcases hB : (m.activate_next_ready_file now).1.active_file with - | ai
    · rw [hB] at h
      dsimp only at h
      simp only [Option.some.injEq, Prod.mk.injEq] at h
      obtain ⟨rfl, -, -⟩ := h
      intro f hf
      exact absurd hf (by simp)
    · rw [hB] at h
      dsimp only at h
      rcases hG : (m.activate_next_ready_file now).1.files.get? ai with - | af
      · rw [hG] at h
        exact absurd h (by simp)
      · rw [hG] at h
        dsimp only at h
        rcases hL : chunkLoop env fuel af [] 0 with - | ⟨⟨chunk, csz, af'⟩⟩
        · rw [hL] at h
          exact absurd h (by simp)
        · rw [hL] at h
          dsimp only at h
          simp only [Option.some.injEq, Prod.mk.injEq] at h
          obtain ⟨rfl, -, -⟩ := h
          exact splitFrames_no_finish _ _ _ _ (le_refl _)
  · rw [hA] at h
    dsimp only at h
    rw [hA] at h
    dsimp only at h
    rcases hG : m.files.get? ai0 with - | af
    · rw [hG] at h
      exact absurd h (by simp)
    · rw [hG] at h
      dsimp only at h
      rcases hL : chunkLoop env fuel af [] 0 with - | ⟨⟨chunk, csz, af'⟩⟩
      · rw [hL] at h
        exact absurd h (by simp)
      · rw [hL] at h
        dsimp only at h
        simp only [Option.some.injEq, Prod.mk.injEq] at h
        obtain ⟨rfl, -, -⟩ := h
        exact splitFrames_no_finish _ _ _ _ (le_refl _)

/-- Event trace for the C6 counterexample: two files are granted and
started; the first tick sends file 1, the second tick finishes file 1
and activates file 2 (firing file 1's `file_done` while its error
message is still empty), the third tick sends file 2; then file 1 is
acknowledged with status `disk full` after its callback already ran,
file 2 with `OK`, and the final tick observes `all_acknowledged`. -/
def traceC6 : List Ev :=
  [ Ev.frame frOK, Ev.runTick 5 1,
    Ev.frame (frStarted "1"), Ev.frame (frStarted "2"),
    Ev.runTick 5 2, Ev.runTick 5 3,
    Ev.frame (frAck "1" "disk full"), Ev.frame (frAck "2" "OK"),
    Ev.runTick 5 4, Ev.writeDone 5 ]

/-- The world reached by the C6 counterexample trace. -/
def wC6 : World :=
  (runEvents envB traceC6 (initWorld envB "rid" planB2)).getD (initWorld envB "rid" planB2)

/-- Event trace realizing scenario S6: three files, file 2 acknowledged
with `disk full` while it is still the active file. -/
def traceS6 : List Ev :=
  [ Ev.frame frOK, Ev.runTick 5 1,
    Ev.frame (frStarted "1"), Ev.frame (frStarted "2"), Ev.frame (frStarted "3"),
    Ev.runTick 5 2, Ev.runTick 5 3,
    Ev.frame (frAck "1" "OK"), Ev.frame (frAck "2" "disk full"),
    Ev.runTick 5 4, Ev.frame (frAck "3" "OK"),
    Ev.runTick 5 5, Ev.writeDone 6 ]

/-- The world reached by the S6 trace. -/
def wS6 : World :=
  (runEvents envB traceS6 (initWorld envB "rid" planB3)).getD (initWorld envB "rid" planB3)

/-- Counterexample to C6 as stated: in a two-file run, file 1's
terminal status `disk full` arrives only after its `file_done` callback
already ran (it fired when file 2 was activated), so `failed_files`
stays empty and the sender exits with code 0 although a plan file ends
with a non-empty error message; the `finish` frame is still emitted
exactly once. -/
theorem C6_counterexample :
    runEvents envB traceC6 (initWorld envB "rid" planB2) = some wC6 ∧
    wC6.exit = some 0 ∧
    wC6.h.manager.files.map (fun f => f.err_msg) = ["disk full", ""] ∧
    wC6.h.failed_files = [] ∧
    (wC6.out.filter (fun f => f.action = Action.finish)).length = 1 ∧
    wC6.h.manager.all_acknowledged = true :=
  ⟨by decide, by decide, by decide, by decide, by decide, by decide⟩

/-- C6 (amended): when `transmit_next_chunk` observes `all_acknowledged`
it emits the `finish` frame exactly once and schedules loop exit with
code 0 when `failed_files` is empty and 1 otherwise — `failed_files`
records a file only when its error message was already non-empty at the
moment its `file_done` callback fired, not by scanning the plan for
error messages; when `all_acknowledged` does not hold, no `finish`
frame is emitted and no exit is scheduled.  In scenario S6 (three
files, file 2 acknowledged `disk full` while still active) the callback
does see the error, so the run exits with code 1, one `finish` frame,
and reports file 2's display name with message `disk full`. -/
theorem C6_finish_and_exit (env : Env) (fuel now : Nat) (h h' : SendHandler) (fr : List FTC)
    (hrun : h.transmit_next_chunk env fuel now = some (h', fr)) :
    ((h'.manager.all_acknowledged = true →
        (fr.filter (fun f => f.action = Action.finish)).length = 1 ∧
        h'.quit_after_write_code = some (if h'.failed_files = [] then 0 else 1)) ∧
     (h'.manager.all_acknowledged = false →
        (∀ f ∈ fr, f.action ≠ Action.finish) ∧
        h'.quit_after_write_code = h.quit_after_write_code)) ∧
    (runEvents envB traceS6 (initWorld envB "rid" planB3) = some wS6 ∧
      wS6.exit = some 1 ∧
      wS6.h.failed_files.map (fun f => (f.display_name, f.err_msg)) = [("/b", "disk full")] ∧
      (wS6.out.filter (fun f => f.action = Action.finish)).length = 1) := by
  constructor
  · unfold SendHandler.transmit_next_chunk at hrun
    rcases hr : h.manager.next_chunks env fuel now with - | ⟨⟨frames, m', dones⟩⟩
    · rw [hr] at hrun
      exact absurd hrun (by simp)
    · rw [hr] at hrun
      dsimp only at hrun
      have hnf : ∀ f ∈ frames, f.action ≠ Action.finish :=
        next_chunks_no_finish env fuel now h.manager frames m' dones hr
      set hfd := SendHandler.fireDones { h with manager := m' } dones
      by_cases hack : hfd.manager.all_acknowledged = true
      · rw [if_pos hack] at hrun
        dsimp only [SendHandler.transfer_finished] at hrun
        simp only [Option.some.injEq, Prod.mk.injEq] at hrun
        obtain ⟨heq, hfr⟩ := hrun
        have hfact : h'.manager.all_acknowledged = true := by
          rw [← heq]; exact hack
        have hquit : h'.quit_after_write_code =
            some (if hfd.failed_files ≠ [] then 1 else 0) := by
          rw [← heq]
        have hffeq : h'.failed_files = hfd.failed_files := by
          rw [← heq]
        constructor
        · intro _
          constructor
          · rw [← hfr, List.filter_append,
              List.filter_eq_nil.mpr (fun a ha => by simpa using hnf a ha)]
            decide
          · rw [hquit, hffeq]
            by_cases hff : hfd.failed_files = []
            · simp [hff]
            · simp [hff]
        · intro hfalse
          rw [hfact] at hfalse
          exact Bool.noConfusion hfalse
      · rw [if_neg hack] at hrun
        simp only [Option.some.injEq, Prod.mk.injEq] at hrun
        obtain ⟨heq, hfr⟩ := hrun
        have hfact : h'.manager.all_acknowledged = false := by
          rw [← heq]
          simpa using hack
        have hq2 : h'.quit_after_write_code = h.quit_after_write_code := by
          rw [← heq]
          exact (fireDones_frame dones { h with manager := m' }).2
        constructor
        · intro htrue
          rw [hfact] at htrue
          exact Bool.noConfusion htrue
        · intro _
          refine ⟨?_, hq2⟩
          intro f hf
          rw [← hfr] at hf
          exact hnf f hf
  · exact ⟨by decide, by decide, by decide, by decide⟩

/-- A handler over an empty plan: its very first chunk production
observes `all_acknowledged`. -/
def hEmptyC6 : SendHandler := { manager := SendManager.init envB "rid" [] "" }

/-- The concrete result of `transmit_next_chunk` on the empty-plan
handler. -/
def tnC6 : SendHandler × List FTC :=
  (hEmptyC6.transmit_next_chunk envB 1 0).getD (hEmptyC6, [])

/-- Witness for the amended C6 at the empty-plan handler. -/
theorem C6_witness :
    hEmptyC6.transmit_next_chunk envB 1 0 = some (tnC6.1, tnC6.2) ∧
    (tnC6.1.manager.all_acknowledged = true →
      (tnC6.2.filter (fun f => f.action = Action.finish)).length = 1 ∧
      tnC6.1.quit_after_write_code = some (if tnC6.1.failed_files = [] then 0 else 1)) :=
  ⟨by decide, (C6_finish_and_exit envB 1 0 hEmptyC6 tnC6.1 tnC6.2 (by decide)).1.1⟩

/-- The walk numbers its yielded files consecutively from the counter:
the rendered ids of a successful walk are the lowercase hexadecimals of
`ctr, ctr+1, …`. -/
theorem processW_ids (env : Env) : ∀ (fuel : Nat) (work : List WorkItem) (ctr : Nat)
    (fs : List File), processW env fuel work ctr = some fs →
    fs.map (fun f => f.file_id) = (List.range' ctr fs.length).map toHex := by
  intro fuel
  induction fuel with
  | zero =>
    intro work ctr fs h
    match work with
    | [] =>
      rw [processW] at h
      cases h
      rfl
    | w :: rest =>
      rw [processW] at h
      exact absurd h (by simp)
  | succ fuel ih =>
    intro work ctr fs h
    match work with
    | [] =>
      rw [processW] at h
      cases h
      rfl
    | (x, rb) :: rest =>
      rw [processW] at h
      dsimp only at h
      rcases hst : env.lstatF (env.expand_home x) with - | s
      · rw [hst] at h
        exact absurd h (by simp)
      · rw [hst] at h
        dsimp only at h
        cases hk : s.kind
        case dirK =>
          rw [hk] at h
          dsimp only at h
          rw [Option.map_eq_some'] at h
          obtain ⟨fs', hrec, rfl⟩ := h
          simp only [List.map_cons, List.length_cons, List.range'_succ]
          rw [ih _ _ _ hrec]
          rfl
        case lnkK =>
          rw [hk] at h
          dsimp only at h
          rw [Option.map_eq_some'] at h
          obtain ⟨fs', hrec, rfl⟩ := h
          simp only [List.map_cons, List.length_cons, List.range'_succ]
          rw [ih _ _ _ hrec]
          rfl
        case regK =>
          rw [hk] at h
          dsimp only at h
          rw [Option.map_eq_some'] at h
          obtain ⟨fs', hrec, rfl⟩ := h
          simp only [List.map_cons, List.length_cons, List.range'_succ]
          rw [ih _ _ _ hrec]
          rfl
        case otherK =>
          rw [hk] at h
          dsimp only at h
          exact ih _ _ _ h

/-- The hard-link pass never changes a file's rendered id. -/
theorem hlGo_ids : ∀ (l seen : List File),
    (hlGo seen l).map (fun f => f.file_id) = l.map (fun f => f.file_id) := by
  intro l
  induction l with
  | nil => intro seen; rfl
  | cons f rest ih =>
    intro seen
    rw [hlGo]
    rcases hfind : seen.find? (fun g => g.file_hash = f.file_hash) with - | g
    · rw [hfind]
      dsimp only
      rw [List.map_cons, ih]
      rfl
    · rw [hfind]
      dsimp only
      rw [List.map_cons, ih]
      rfl

/-- When no iterated entry is dropped, the symlink pass keeps the list
of rendered ids unchanged. -/
theorem symlinkPass_ids (env : Env) (snapshot : List File) : ∀ (l : List File),
    (∀ f ∈ l, (symlinkStep env snapshot f).isSome) →
    (l.filterMap (symlinkStep env snapshot)).map (fun f => f.file_id) =
      l.map (fun f => f.file_id) := by
  intro l
  induction l with
  | nil => intro _; rfl
  | cons f rest ih =>
    intro hk
    rcases hstep : symlinkStep env snapshot f with - | f'
    · exact absurd (hk f (List.mem_cons_self f rest)) (by rw [hstep]; simp)
    · rw [List.filterMap_cons, hstep]
      dsimp only
      rw [List.map_cons, List.map_cons, ih (fun g hg => hk g (List.mem_cons_of_mem f hg)),
        (symlinkStep_keeps env snapshot f f' hstep).1]

/-- The walked list (before the post-passes) is numbered from 1. -/
theorem plannerFiles_ids (env : Env) (fuel : Nat) (mode : String) (args : List String)
    (files0 : List File) (h : plannerFiles env fuel mode args = some files0) :
    files0.map (fun f => f.file_id) = (List.range' 1 files0.length).map toHex := by
  unfold plannerFiles process_mirrored_files process_normal_files at h
  by_cases hm : mode = "mirror"
  · rw [if_pos hm] at h
    dsimp only at h
    exact processW_ids env fuel _ 1 files0 h
  · rw [if_neg hm] at h
    by_cases hlen : args.length < 2
    · rw [if_pos hlen] at h
      exact absurd h (by simp)
    · rw [if_neg hlen] at h
      dsimp only at h
      exact processW_ids env fuel _ 1 files0 h

/-- The surviving plan of the C8 counterexample run: the walk yields
the broken symlink `/s` as id 1 and the regular `/r` as id 2, and the
symlink pass then drops `/s`. -/
def planA8 : List File := (files_for_send envA 10 "normal" ["s", "r", "dest"]).getD []

/-- Counterexample to C8 as stated: dropping a symlink whose readlink
fails leaves a one-entry plan whose only rendered id is `2`, not the
hexadecimal `1` of its 1-based position. -/
theorem C8_counterexample :
    files_for_send envA 10 "normal" ["s", "r", "dest"] = some planA8 ∧
    planA8.length = 1 ∧
    planA8.map (fun f => f.file_id) = ["2"] ∧
    (List.range' 1 planA8.length).map toHex = ["1"] ∧
    ¬ (["2"] = ["1"] : Prop) :=
  ⟨by decide, by decide, by decide, by decide, by decide⟩

/-- C8 (amended): ids are assigned in walk order starting from 1, and
both post-passes keep every surviving entry's id; so whenever the
symlink pass drops nothing (every readlink it performs succeeds), the
rendered ids of the returned plan are exactly the lowercase hexadecimals
of the 1-based positions — but an entry dropped for a failed readlink
shifts the positions of later files away from their ids. -/
theorem C8_file_ids (env : Env) (fuel : Nat) (mode : String) (args : List String)
    (files0 plan : List File)
    (hwalk : plannerFiles env fuel mode args = some files0)
    (hsend : files_for_send env fuel mode args = some plan)
    (hkeep : ∀ f ∈ hardLinkPass files0, (symlinkStep env (hardLinkPass files0) f).isSome) :
    plan.map (fun f => f.file_id) = (List.range' 1 plan.length).map toHex := by
  unfold files_for_send at hsend
  rw [hwalk] at hsend
  simp only [Option.map, Option.some.injEq] at hsend
  subst hsend
  have h1 : (symlinkPass env (hardLinkPass files0)).map (fun f => f.file_id) =
      (hardLinkPass files0).map (fun f => f.file_id) :=
    symlinkPass_ids env (hardLinkPass files0) (hardLinkPass files0) hkeep
  have h2 : (hardLinkPass files0).map (fun f => f.file_id) =
      files0.map (fun f => f.file_id) := hlGo_ids files0 []
  have h3 := plannerFiles_ids env fuel mode args files0 hwalk
  have hlen : (symlinkPass env (hardLinkPass files0)).length = files0.length := by
    have := congrArg List.length (h1.trans h2)
    simpa using this
  rw [h1, h2, h3, hlen]

/-- The walked list of the C8 witness run. -/
def walkB2 : List File := (plannerFiles envB 10 "normal" ["a", "b", "dest"]).getD []

/-- Witness for the amended C8: two regular files, no symlink dropped,
ids `1` and `2` at positions 1 and 2. -/
theorem C8_witness :
    plannerFiles envB 10 "normal" ["a", "b", "dest"] = some walkB2 ∧
    files_for_send envB 10 "normal" ["a", "b", "dest"] = some planB2 ∧
    (∀ f ∈ hardLinkPass walkB2, (symlinkStep envB (hardLinkPass walkB2) f).isSome) ∧
    planB2.map (fun f => f.file_id) = (List.range' 1 planB2.length).map toHex :=
  ⟨by decide, by decide, by decide,
   C8_file_ids envB 10 "normal" ["a", "b", "dest"] walkB2 planB2
     (by decide) (by decide) (by decide)⟩

end KittySend
